import Mathlib

/-!
Shallow embedding of the SDS document loading pipeline
(`src/app/loader_pdf.py`, with the two functions of `src/app/loader.py`
that the claims also reference).  Strings are `List Char`; Python's
regular expressions are translated into explicit character-level
matching functions; the whitespace and line-break character classes
cover the ASCII range plus the common Latin-1 / BMP members (exotic
Unicode space code points are outside the inputs this repository
processes).  PDF text extraction (PyMuPDF) and the langchain
`RecursiveCharacterTextSplitter` are external collaborators: the page
list is taken as input and the fallback splitter is a function
parameter.
-/

set_option maxRecDepth 10000

/-- Python whitespace (`str.strip`, regex class `\s`), ASCII plus the
common additional code points. -/
def isSpacePy (c : Char) : Bool :=
  c == ' ' || c == '\t' || c == '\n' || c == '\r' ||
  c == Char.ofNat 0x0b || c == Char.ofNat 0x0c ||
  c == Char.ofNat 0x1c || c == Char.ofNat 0x1d ||
  c == Char.ofNat 0x1e || c == Char.ofNat 0x1f ||
  c == Char.ofNat 0x85 || c == Char.ofNat 0xa0 ||
  c == Char.ofNat 0x2028 || c == Char.ofNat 0x2029

/-- Line-break characters recognised by Python `str.splitlines`. -/
def isLB (c : Char) : Bool :=
  c == '\n' || c == '\r' ||
  c == Char.ofNat 0x0b || c == Char.ofNat 0x0c ||
  c == Char.ofNat 0x1c || c == Char.ofNat 0x1d ||
  c == Char.ofNat 0x1e || c == Char.ofNat 0x85 ||
  c == Char.ofNat 0x2028 || c == Char.ofNat 0x2029

/-- Python `str.splitlines`: split on line-break characters, treating
`"\r\n"` as a single separator, with no trailing empty line. -/
def splitlinesPy : List Char → List (List Char)
  | [] => []
  | [c] => if isLB c then [[]] else [[c]]
  | c :: d :: rest =>
    if c = '\r' && d = '\n' then [] :: splitlinesPy rest
    else if isLB c then [] :: splitlinesPy (d :: rest)
    else
      match splitlinesPy (d :: rest) with
      | [] => [[c]]
      | l :: ls => (c :: l) :: ls

/-- Join a list of strings with `"\n"` (Python `"\n".join`). -/
def joinNL : List (List Char) → List Char
  | [] => []
  | [l] => l
  | l :: l2 :: ls => l ++ '\n' :: joinNL (l2 :: ls)

/-- Python `str.lstrip()`. -/
def lstripPy (cs : List Char) : List Char := cs.dropWhile isSpacePy

/-- Python `str.rstrip()`. -/
def rstripPy (cs : List Char) : List Char :=
  ((cs.reverse).dropWhile isSpacePy).reverse

/-- Python `str.strip()`. -/
def pyStrip (cs : List Char) : List Char := rstripPy (lstripPy cs)

/-- `re.sub(r"\s+", " ", s)`: replace every run of whitespace with a
single space.  The Boolean flag records whether the previous character
was part of a whitespace run. -/
def subWsGo : Bool → List Char → List Char
  | _, [] => []
  | inRun, c :: cs =>
    if isSpacePy c then
      if inRun then subWsGo true cs else ' ' :: subWsGo true cs
    else c :: subWsGo false cs

def subWs (cs : List Char) : List Char := subWsGo false cs

/-- `re.sub(r"\s+", " ", s).strip()`, the normalisation applied to
lines throughout `loader_pdf.py`. -/
def normLine (cs : List Char) : List Char := pyStrip (subWs cs)

/-- ASCII lower-casing, for the case-insensitive regex matching. -/
def lowerList (cs : List Char) : List Char := cs.map Char.toLower

/-- Boolean prefix test on character lists. -/
def isPrefixList : List Char → List Char → Bool
  | [], _ => true
  | _ :: _, [] => false
  | a :: as, b :: bs => a == b && isPrefixList as bs

/-- Case-insensitive prefix test (ASCII). -/
def startsWithCI (cs : List Char) (w : List Char) : Bool :=
  isPrefixList (lowerList w) (lowerList cs)

/-- Length of the leading run satisfying `p`. -/
def countWhile (p : Char → Bool) (cs : List Char) : Nat :=
  (cs.takeWhile p).length

def skipWsL (cs : List Char) : List Char := cs.dropWhile isSpacePy

/-- `s[a:b]` for `0 ≤ a ≤ b`. -/
def sliceL (cs : List Char) (a b : Nat) : List Char := (cs.drop a).take (b - a)

-- --------------------------------------------------------------------
-- Boilerplate detection (`_find_repeated_lines`, loader_pdf.py 28-55,
-- and `identify_repeated_headers_footers`, loader.py 51-63)
-- --------------------------------------------------------------------

/-- One `freq[ln] = freq.get(ln, 0) + 1` step on the dict, modelled as
an association list in insertion order. -/
def bump : List (List Char × Nat) → List Char → List (List Char × Nat)
  | [], k => [(k, 1)]
  | (k', c) :: rest, k =>
    if k' = k then (k', c + 1) :: rest else (k', c) :: bump rest k

/-- Count associated with a key (0 when absent). -/
def lookupA : List (List Char × Nat) → List Char → Nat
  | [], _ => 0
  | (k', c) :: rest, k => if k' = k then c else lookupA rest k

/-- The loop body of the frequency count of `_find_repeated_lines`:
`ln = re.sub(r"\s+", " ", line).strip(); if ln: freq[ln] += 1`. -/
def freqStep (m : List (List Char × Nat)) (line : List Char) :
    List (List Char × Nat) :=
  if normLine line = [] then m else bump m (normLine line)

/-- The frequency dict of `_find_repeated_lines`: every non-empty
whitespace-collapsed line of every page is counted. -/
def freqFold (pages : List (List Char)) : List (List Char × Nat) :=
  pages.foldl (fun m p => (splitlinesPy p).foldl freqStep m) []

/-- Python `int()` on a rational (truncation toward zero); the source
computes `int(len(pages) * threshold)` on floats, which agrees with
exact rational arithmetic at the ratios used (0.6, 0.7). -/
def pyInt (q : ℚ) : ℤ := if 0 ≤ q then ⌊q⌋ else ⌈q⌉

/-- `cutoff = max(2, int(len(pages) * threshold))`. -/
def cutoffVal (n : Nat) (ratio : ℚ) : Nat :=
  max 2 (pyInt ((n : ℚ) * ratio)).toNat

-- The six "common boilerplate patterns", matched with `re.search(...,
-- re.IGNORECASE)` (no MULTILINE flag, so `^` anchors to the start of
-- the string).

/-- `^Page\s+\d+\s+of\s+\d+`. -/
def patPageOf (s : List Char) : Bool :=
  startsWithCI s "Page".toList &&
  (let r1 := s.drop 4
   match r1 with
   | c :: _ =>
     isSpacePy c &&
     (let r2 := skipWsL r1
      let d1 := countWhile Char.isDigit r2
      decide (0 < d1) &&
      (let r3 := r2.drop d1
       match r3 with
       | c2 :: _ =>
         isSpacePy c2 &&
         (let r4 := skipWsL r3
          startsWithCI r4 "of".toList &&
          (let r5 := r4.drop 2
           match r5 with
           | c3 :: _ =>
             isSpacePy c3 &&
             (match skipWsL r5 with
              | d :: _ => d.isDigit
              | [] => false)
           | [] => false))
       | [] => false))
   | [] => false)

/-- `^Revision\s+date`. -/
def patRevisionDate (s : List Char) : Bool :=
  startsWithCI s "Revision".toList &&
  (let r1 := s.drop 8
   match r1 with
   | c :: _ => isSpacePy c && startsWithCI (skipWsL r1) "date".toList
   | [] => false)

/-- `^Date\s+of\s+print`. -/
def patDateOfPrint (s : List Char) : Bool :=
  startsWithCI s "Date".toList &&
  (let r1 := s.drop 4
   match r1 with
   | c :: _ =>
     isSpacePy c &&
     (let r2 := skipWsL r1
      startsWithCI r2 "of".toList &&
      (let r3 := r2.drop 2
       match r3 with
       | c2 :: _ => isSpacePy c2 && startsWithCI (skipWsL r3) "print".toList
       | [] => false))
   | [] => false)

/-- `^SAFETY\s+DATA\s+SHEET`. -/
def patSafetyDataSheet (s : List Char) : Bool :=
  startsWithCI s "SAFETY".toList &&
  (let r1 := s.drop 6
   match r1 with
   | c :: _ =>
     isSpacePy c &&
     (let r2 := skipWsL r1
      startsWithCI r2 "DATA".toList &&
      (let r3 := r2.drop 4
       match r3 with
       | c2 :: _ => isSpacePy c2 && startsWithCI (skipWsL r3) "SHEET".toList
       | [] => false))
   | [] => false)

/-- `according to Regulation` (unanchored substring search). -/
def patAccordingTo (s : List Char) : Bool :=
  (List.range (s.length + 1)).any
    (fun i => startsWithCI (s.drop i) "according to Regulation".toList)

/-- `^Document number`. -/
def patDocumentNumber (s : List Char) : Bool :=
  startsWithCI s "Document number".toList

/-- The `common` pattern catalog check of `_find_repeated_lines`. -/
def catalogMatch (s : List Char) : Bool :=
  patPageOf s || patRevisionDate s || patDateOfPrint s ||
  patSafetyDataSheet s || patAccordingTo s || patDocumentNumber s

/-- The frequency rule of `_find_repeated_lines`:
`{line for line, c in freq.items() if c >= cutoff}`. -/
def freqRepeated (pages : List (List Char)) (threshold : ℚ) :
    List (List Char) :=
  ((freqFold pages).filter
    (fun e => cutoffVal pages.length threshold ≤ e.2)).map Prod.fst

/-- `_find_repeated_lines(pages, threshold)`: the set of repeated
header/footer lines, as a list (set membership is what matters). -/
def find_repeated_lines (pages : List (List Char)) (threshold : ℚ) :
    List (List Char) :=
  if pages = [] then []
  else
    (freqFold pages).foldl
      (fun acc e =>
        if catalogMatch e.1 && !(acc.contains e.1) then acc ++ [e.1] else acc)
      (freqRepeated pages threshold)

/-- The loop body of `identify_repeated_headers_footers`:
`line = line.strip(); if len(line) < 5: continue; freq[line] += 1`. -/
def freqStepTxt (m : List (List Char × Nat)) (line : List Char) :
    List (List Char × Nat) :=
  if (pyStrip line).length < 5 then m else bump m (pyStrip line)

/-- `identify_repeated_headers_footers(pages)` from `loader.py`: the
dict of lines (stripped, length at least 5) whose count reaches
`max(2, int(len(pages) * 0.7))`.  There is no pattern catalog here. -/
def identify_repeated_headers_footers (pages : List (List Char)) :
    List (List Char × Nat) :=
  let freq := pages.foldl (fun m p => (splitlinesPy p).foldl freqStepTxt m) []
  let threshold := cutoffVal pages.length (7/10)
  freq.filter (fun e => threshold ≤ e.2)

-- --------------------------------------------------------------------
-- Boilerplate stripping (`_strip_repeated_lines`, loader_pdf.py 57-66)
-- --------------------------------------------------------------------

/-- The kept lines of one page: a raw line survives when its collapsed
form is non-empty and not in the repeated set. -/
def keptLines (p : List Char) (repeated : List (List Char)) :
    List (List Char) :=
  (splitlinesPy p).filter
    (fun line => normLine line ≠ [] && !(repeated.contains (normLine line)))

/-- One cleaned page: `"\n".join(kept)`. -/
def cleanPage (p : List Char) (repeated : List (List Char)) : List Char :=
  joinNL (keptLines p repeated)

/-- `_strip_repeated_lines(pages, repeated)`. -/
def strip_repeated_lines (pages : List (List Char))
    (repeated : List (List Char)) : List Char :=
  joinNL (pages.map (fun p => cleanPage p repeated))

/-- `_read_pdf_text_clean`, given the page texts that PyMuPDF
extracted (the PDF decoding itself is an external collaborator). -/
def read_pdf_text_clean (pages : List (List Char)) : List Char :=
  if pages = [] then []
  else pyStrip (strip_repeated_lines pages (find_repeated_lines pages (6/10)))

-- --------------------------------------------------------------------
-- Section splitting (`_SECTION_SPLIT_LOOKAHEAD` / `_split_into_sections`,
-- loader_pdf.py 174-207)
-- --------------------------------------------------------------------

/-- Word character for regex `\b` (ASCII `[A-Za-z0-9_]`). -/
def isWordChar (c : Char) : Bool := c.isAlphanum || c == '_'

/-- With `re.MULTILINE`, `^` matches at position 0 and right after each
`'\n'`. -/
def isLineStart (text : List Char) (i : Nat) : Bool :=
  i == 0 || text.get? (i - 1) == some '\n'

/-- After the shared `\s*` skip: `(?:Section|SECTION|Sec|SEC)\s*0*\d+`
followed by `(?:\s*[:\.\-–]\s*|\s+)` (all case-insensitive).  The
delimiter group holds exactly when the next character is whitespace or
one of `: . - –`; the digit run must be consumed whole because the
character after a partial run is a digit, which is neither. -/
def delimOrSpace (cs : List Char) : Bool :=
  match cs with
  | [] => false
  | c :: _ => isSpacePy c || c == ':' || c == '.' || c == '-' || c == '–'

def secWordForm (cs : List Char) : Bool :=
  let after := fun (rest : List Char) =>
    let r1 := skipWsL rest
    let ds := countWhile Char.isDigit r1
    decide (0 < ds) && delimOrSpace (r1.drop ds)
  (startsWithCI cs "Section".toList && after (cs.drop 7)) ||
  (startsWithCI cs "Sec".toList && after (cs.drop 3))

/-- `\d{1,2}[\.\-]\s+[A-Z]` (case-insensitive, so the letter may be
lower case). -/
def numDotForm (cs : List Char) : Bool :=
  let ds := countWhile Char.isDigit cs
  (ds == 1 || ds == 2) &&
  (match cs.drop ds with
   | c :: rest =>
     (c == '.' || c == '-') &&
     (match rest with
      | d :: _ =>
        isSpacePy d &&
        (match skipWsL rest with
         | a :: _ => a.isAlpha
         | [] => false)
      | [] => false)
   | [] => false)

/-- Third alternative: one or two digits, whitespace, a letter, then at
least three characters from the class letter, space, hyphen, slash
(case-insensitive). -/
def inCapsClass (c : Char) : Bool := c.isAlpha || c == ' ' || c == '-' || c == '/'

def numCapsForm (cs : List Char) : Bool :=
  let ds := countWhile Char.isDigit cs
  (ds == 1 || ds == 2) &&
  (match cs.drop ds with
   | c :: _ =>
     isSpacePy c &&
     (match skipWsL (cs.drop ds) with
      | a :: tail => a.isAlpha && decide (3 ≤ countWhile inCapsClass tail)
      | [] => false)
   | [] => false)

/-- The zero-width lookahead of `_SECTION_SPLIT_LOOKAHEAD` holds at
position `i`. -/
def headingLookaheadAt (text : List Char) (i : Nat) : Bool :=
  isLineStart text i &&
  (let cs := skipWsL (text.drop i)
   secWordForm cs || numDotForm cs || numCapsForm cs)

/-- All split positions of `re.split` on the zero-width lookahead. -/
def splitPositions (text : List Char) : List Nat :=
  (List.range text.length).filter (fun i => headingLookaheadAt text i)

/-- The substrings between consecutive split positions (`re.split`
output). -/
def segmentsFrom (text : List Char) (ps : List Nat) (start : Nat) :
    List (List Char) :=
  match ps with
  | [] => [sliceL text start text.length]
  | p :: rest => sliceL text start p :: segmentsFrom text rest p

def partsOf (text : List Char) : List (List Char) :=
  segmentsFrom text (splitPositions text) 0

/-- The body of the per-part loop of `_split_into_sections`: strip the
part, skip it when empty, and title it with its stripped first line. -/
def chunkOfPart (part : List Char) : Option (List Char × List Char) :=
  let p := pyStrip part
  if p = [] then none
  else some (pyStrip ((splitlinesPy p).headD []), p)

/-- `_split_into_sections`.  The fallback `RecursiveCharacterTextSplitter`
(chunk_size 1200, overlap 200) is an external langchain collaborator and
is passed as the `splitter` parameter. -/
def split_into_sections (splitter : List Char → List (List Char))
    (text : List Char) : List (List Char × List Char) :=
  let parts := partsOf text
  if 1 < parts.length then parts.filterMap chunkOfPart
  else (splitter text).map (fun ch => ("FULL".toList, ch))

-- --------------------------------------------------------------------
-- Section 1 block extraction (`_SECTION1_BLOCK_PATTERNS` /
-- `_extract_section1_block`, loader_pdf.py 80-99)
-- --------------------------------------------------------------------

/-- Mandatory part of pattern 1, `^\s*Section\s*0*1\b` (case-insensitive,
`\s` may cross newlines): when it matches starting at line-start `i`,
return the position right after the digit `1`.  Pattern 2 of the source
is the same pattern (the case difference is erased by `(?i)`). -/
def pat1MandEnd (text : List Char) (i : Nat) : Option Nat :=
  if isLineStart text i then
    let rest := text.drop i
    let n1 := countWhile isSpacePy rest
    let r1 := rest.drop n1
    if startsWithCI r1 "Section".toList then
      let r2 := r1.drop 7
      let n2 := countWhile isSpacePy r2
      let r3 := r2.drop n2
      let n3 := countWhile (fun c => c == '0') r3
      match r3.drop n3 with
      | '1' :: tail =>
        match tail with
        | [] => some (i + n1 + 7 + n2 + n3 + 1)
        | c :: _ =>
          if isWordChar c then none else some (i + n1 + 7 + n2 + n3 + 1)
      | _ => none
    else none
  else none

/-- Mandatory part of pattern 3, `^\s*1[\.\-]?\s+[A-Z][^\n]*\n`
(case-insensitive): position right after the newline. -/
def pat3MandEnd (text : List Char) (i : Nat) : Option Nat :=
  if isLineStart text i then
    let rest := text.drop i
    let n1 := countWhile isSpacePy rest
    match rest.drop n1 with
    | '1' :: r2 =>
      let dlen := match r2 with
        | c :: _ => if c == '.' || c == '-' then 1 else 0
        | [] => 0
      let r3 := r2.drop dlen
      match r3 with
      | c :: _ =>
        if isSpacePy c then
          let n2 := countWhile isSpacePy r3
          match r3.drop n2 with
          | a :: r5 =>
            if a.isAlpha then
              let k := countWhile (fun c => c != '\n') r5
              if r5.drop k = [] then none
              else some (i + n1 + 1 + dlen + n2 + 1 + k + 1)
            else none
          | [] => none
        else none
      | [] => none
    | _ => none
  else none

/-- Mandatory part of pattern 4, `^\s*1\s+[A-Z][A-Z \-]{3,}\n`
(case-insensitive): position right after the newline.  The class run is
maximal and must be followed directly by `'\n'`. -/
def inClass4 (c : Char) : Bool := c.isAlpha || c == ' ' || c == '-'

def pat4MandEnd (text : List Char) (i : Nat) : Option Nat :=
  if isLineStart text i then
    let rest := text.drop i
    let n1 := countWhile isSpacePy rest
    match rest.drop n1 with
    | '1' :: r2 =>
      match r2 with
      | c :: _ =>
        if isSpacePy c then
          let n2 := countWhile isSpacePy r2
          match r2.drop n2 with
          | a :: r5 =>
            if a.isAlpha then
              let m := countWhile inClass4 r5
              if decide (3 ≤ m) && (r5.drop m).head? == some '\n' then
                some (i + n1 + 1 + n2 + 1 + m + 1)
              else none
            else none
          | [] => none
        else none
      | [] => none
    | _ => none
  else none

/-- The shared terminator lookahead of all four patterns:
`^\s*Section\s*0*2\b`, `^\s*2[\.\-]?\s+`, `^\s*2\s+[A-Z]` (the order of
the alternatives differs between patterns but their union is the same). -/
def sec2Head (cs : List Char) : Bool :=
  startsWithCI cs "Section".toList &&
  (let r2 := cs.drop 7
   let n2 := countWhile isSpacePy r2
   let r3 := r2.drop n2
   let n3 := countWhile (fun c => c == '0') r3
   match r3.drop n3 with
   | '2' :: tail =>
     match tail with
     | [] => true
     | c :: _ => !(isWordChar c)
   | _ => false)

def twoDelimForm (cs : List Char) : Bool :=
  match cs with
  | '2' :: rest =>
    match rest with
    | [] => false
    | d :: r2 =>
      if d == '.' || d == '-' then
        match r2 with
        | e :: _ => isSpacePy e
        | [] => false
      else isSpacePy d
  | _ => false

def twoCapsForm (cs : List Char) : Bool :=
  match cs with
  | '2' :: rest =>
    (match rest with
     | c :: _ => isSpacePy c
     | [] => false) &&
    (match skipWsL rest with
     | a :: _ => a.isAlpha
     | [] => false)
  | _ => false

def lookahead2At (text : List Char) (j : Nat) : Bool :=
  isLineStart text j &&
  (let cs := skipWsL (text.drop j)
   sec2Head cs || twoDelimForm cs || twoCapsForm cs)

/-- End of the lazy `.*?` tail: the least `j` at or after the mandatory
part where the terminator lookahead holds, or the end of the text
(`$\Z`). -/
def lazyEnd (text : List Char) (e : Nat) : Nat :=
  (((List.range (text.length + 1 - e)).map (fun k => k + e)).find?
    (fun j => j == text.length || lookahead2At text j)).getD text.length

/-- Leftmost match of a pattern: the first start position (scanning all
positions left to right) where the mandatory part matches. -/
def searchPat (f : List Char → Nat → Option Nat) (text : List Char) :
    Option (Nat × Nat) :=
  (List.range (text.length + 1)).findSome?
    (fun i => (f text i).map (fun e => (i, e)))

/-- `_extract_section1_block`: try the patterns in order (pattern 2 is
identical to pattern 1 under `re.IGNORECASE` and cannot add a match);
fall back to the first 2500 characters. -/
def extract_section1_block (text : List Char) : List Char :=
  match searchPat pat1MandEnd text with
  | some (i, e) => pyStrip (sliceL text i (lazyEnd text e))
  | none =>
    match searchPat pat3MandEnd text with
    | some (i, e) => pyStrip (sliceL text i (lazyEnd text e))
    | none =>
      match searchPat pat4MandEnd text with
      | some (i, e) => pyStrip (sliceL text i (lazyEnd text e))
      | none => text.take 2500

-- --------------------------------------------------------------------
-- Product name extraction (loader_pdf.py 104-169)
-- --------------------------------------------------------------------

def nameLabels : List (List Char) :=
  ["Product Name", "Product", "Trade Name", "Product Identifier",
   "Chemical Name", "Material Name", "Substance Name", "Name"].map
    String.toList

def ignoreLabels : List (List Char) :=
  ["Product Use", "Intended Use", "Recommended use", "Supplier",
   "Manufacturer", "Company", "Emergency", "Address", "Phone"].map
    String.toList

/-- `_is_ignored_label`. -/
def is_ignored_label (lab : List Char) : Bool :=
  ignoreLabels.any
    (fun ig => isPrefixList (lowerList ig) (lowerList (pyStrip lab)))

/-- `re.fullmatch(label, s, re.IGNORECASE)` for the plain label strings:
case-insensitive equality. -/
def labelFullmatch (s : List Char) : Bool :=
  nameLabels.any (fun lab => lowerList s == lowerList lab)

/-- Start of a `SDS No` / `CAS No` token (`(?:SDS\s*No\.?|CAS\s*No\.?)`,
case-insensitive; the optional dot does not affect where a match can
start). -/
def tokenAtL (cs : List Char) : Bool :=
  (startsWithCI cs "SDS".toList &&
    startsWithCI (skipWsL (cs.drop 3)) "No".toList) ||
  (startsWithCI cs "CAS".toList &&
    startsWithCI (skipWsL (cs.drop 3)) "No".toList)

/-- `re.sub(r"(?:SDS\s*No\.?|CAS\s*No\.?).*$", "", v)`: drop everything
from the first token occurrence on (the `.*$` swallows the rest, the
value having no newline after whitespace collapse). -/
def dropFromToken : List Char → List Char
  | [] => []
  | c :: cs => if tokenAtL (c :: cs) then [] else c :: dropFromToken cs

/-- `_clean_value`. -/
def clean_value (val : List Char) : List Char :=
  pyStrip (dropFromToken (normLine val))

/-- `re.match(r"(?i)\b(use|intended)\b", val)`: `val` starts with the
whole word `use` or `intended`. -/
def wordAtStart (v : List Char) (w : List Char) : Bool :=
  startsWithCI v w &&
  (match v.drop w.length with
   | [] => true
   | c :: _ => !(isWordChar c))

def startsUseIntended (val : List Char) : Bool :=
  wordAtStart val "use".toList || wordAtStart val "intended".toList

/-- `ln.split(":", 1)` when a colon is present. -/
def splitFirstColon (cs : List Char) : Option (List Char × List Char) :=
  if cs.contains ':' then
    some (cs.takeWhile (fun c => c != ':'),
          ((cs.dropWhile (fun c => c != ':')).tail))
  else none

/-- One iteration of the scanning loop of `extract_product_name` at a
line `ln`, with `rest` the lines after it (used by the
label-on-one-line / value-on-the-next mode). -/
def lineStep (ln : List Char) (rest : List (List Char)) :
    Option (List Char) :=
  match splitFirstColon ln with
  | some lr =>
    let left := pyStrip lr.1
    let right := pyStrip lr.2
    if is_ignored_label left then none
    else if labelFullmatch left then
      let val := clean_value right
      if startsUseIntended val then none
      else if val = [] then none
      else some val
    else none
  | none =>
    if labelFullmatch ln then
      if is_ignored_label ln then none
      else
        match (rest.dropWhile (fun l => pyStrip l == [])).head? with
        | some nxt =>
          let val := clean_value nxt
          if !(labelFullmatch val) && !(is_ignored_label val) then some val
          else none
        | none => none
    else none

/-- The top-to-bottom scan: first line whose step accepts a value. -/
def scanLines : List (List Char) → Option (List Char)
  | [] => none
  | ln :: rest =>
    match lineStep ln rest with
    | some v => some v
    | none => scanLines rest

/-- The collapsed non-blank lines of the Section 1 window. -/
def windowLines (full_text : List Char) : List (List Char) :=
  (splitlinesPy (extract_section1_block full_text)).filterMap
    (fun ln => if pyStrip ln = [] then none else some (normLine ln))

/-- `extract_product_name` (the file name argument is only logged in the
source). -/
def extract_product_name (full_text _fname : List Char) : List Char :=
  match scanLines (windowLines full_text) with
  | some v => v
  | none => "UNKNOWN".toList

-- --------------------------------------------------------------------
-- Public API (`load_sds_documents`, loader_pdf.py 212-246)
-- --------------------------------------------------------------------

/-- A LangChain `Document`: page content plus the metadata dict (as an
association list in literal order). -/
structure DocumentRec where
  page_content : List Char
  metadata : List (List Char × List Char)
deriving DecidableEq

/-- `fname.lower().endswith(".pdf")`. -/
def isPdfName (f : List Char) : Bool :=
  List.isSuffixOf ".pdf".toList (lowerList f)

/-- The per-file body of the `load_sds_documents` loop, given the page
texts PyMuPDF extracted for that file: clean, skip when empty, extract
the product name, split into sections, and build one `Document` per
section. -/
def process_file (splitter : List Char → List (List Char))
    (pdf_dir fname : List Char) (pages : List (List Char)) :
    List DocumentRec :=
  let text := read_pdf_text_clean pages
  if text = [] then []
  else
    let product_name := extract_product_name text fname
    let sections := split_into_sections splitter text
    sections.map (fun tb =>
      { page_content := tb.2
        metadata :=
          [("source".toList, pdf_dir ++ '/' :: fname),
           ("file_name".toList, fname),
           ("product_name".toList, product_name),
           ("section".toList, tb.1),
           ("format".toList, "pdf".toList)] })

/-- One iteration of the `load_sds_documents` loop.  An `Except.error`
accumulator models an exception already raised in an earlier iteration:
the source has no try/except, so it never resumes. -/
def loadStep (splitter : List Char → List (List Char)) (pdf_dir : List Char)
    (acc : Except Unit (List DocumentRec))
    (fr : List Char × Except Unit (List (List Char))) :
    Except Unit (List DocumentRec) :=
  match acc with
  | .error e => .error e
  | .ok docs =>
    if isPdfName fr.1 then
      match fr.2 with
      | .error e => .error e
      | .ok pages => .ok (docs ++ process_file splitter pdf_dir fr.1 pages)
    else .ok docs

/-- `load_sds_documents`: fold over the (sorted) directory listing.
Each file comes with the result of reading it: `Except.error` models
the PDF library raising.  The source has no try/except, so an error
aborts the whole batch (the fold propagates it). -/
def load_sds_documents (splitter : List Char → List (List Char))
    (pdf_dir : List Char)
    (files : List (List Char × Except Unit (List (List Char)))) :
    Except Unit (List DocumentRec) :=
  files.foldl (loadStep splitter pdf_dir) (.ok [])

/-- First value stored under a key of a metadata map (empty when the
key is absent). -/
def metaLookup (md : List (List Char × List Char)) (k : List Char) :
    List Char :=
  match md with
  | [] => []
  | (k2, v) :: rest => if k2 = k then v else metaLookup rest k

-- --------------------------------------------------------------------
-- Specification-side definitions used by the claim statements
-- --------------------------------------------------------------------

/-- Specification-side count: total number of occurrences of the
collapsed line `l` over all lines of all pages (the quantity the
frequency dict tracks). -/
def countOcc (pages : List (List Char)) (l : List Char) : Nat :=
  (pages.map
    (fun p => ((splitlinesPy p).filter (fun line => normLine line == l)).length)).sum

/-- Position of the first `SDS No` / `CAS No` token occurrence in a
string (specification side, by direct search over all positions). -/
def firstTokenPos (s : List Char) : Option Nat :=
  (List.range s.length).find? (fun i => tokenAtL (s.drop i))

def firstTokenPosD (s : List Char) : Nat := (firstTokenPos s).getD s.length

/-- Specification-side view of the label scan: the value (if any) the
loop body accepts at line index `i`. -/
def acceptedAt (lines : List (List Char)) (i : Nat) : Option (List Char) :=
  match lines.drop i with
  | [] => none
  | ln :: rest => lineStep ln rest

/-- Ten synthetic pages: `Repeated Header Line` occurs on 8 of them,
`Common Six Line` on exactly 6, and every other line is unique. -/
def c4Pages : List (List Char) :=
  ["Repeated Header Line\nBody one",
   "Repeated Header Line\nBody two",
   "Repeated Header Line\nBody three",
   "Repeated Header Line\nBody four",
   "Repeated Header Line\nCommon Six Line\nBody five",
   "Repeated Header Line\nCommon Six Line\nBody six",
   "Repeated Header Line\nCommon Six Line\nBody seven",
   "Repeated Header Line\nCommon Six Line\nBody eight",
   "Common Six Line\nBody nine",
   "Common Six Line\nBody ten"].map String.toList

/-- Concrete page sets used by the claim instances. -/
def c1Pages : List (List Char) :=
  ["Section 1: ID \nbody text here"].map String.toList

def c1wPages : List (List Char) :=
  ["Section 3: Storage\nKeep cool"].map String.toList

def c3Pages : List (List Char) :=
  ["Section 7: Handling and storage\nGeneral stuff\n7.1 Precautions\nWash hands\nSection 8: Exposure\nUse gloves"].map
    String.toList

def c7Pages : List (List Char) :=
  ["col1  col2\nother line"].map String.toList

def c9Pages : List (List Char) :=
  ["Hello there"].map String.toList

def c10Pages : List (List Char) :=
  ["alpha line", "", "beta line"].map String.toList

def c8Pages : List (List Char) :=
  ["abc", "abc", "abc"].map String.toList

def c8wPages : List (List Char) :=
  ["Header line!", "Header line!", "Header line!"].map String.toList

/-- Substring test (used to state that subsection text stays inside its
parent section's body). -/
def containsSub (hay needle : List Char) : Bool :=
  (List.range (hay.length + 1)).any (fun i => isPrefixList needle (hay.drop i))

/-- `WsInterleaved text bodies` says `text` is an alternation of
whitespace-only runs and the non-empty `bodies`, in order.  This is the
lossless-up-to-stripping reconstruction property: the bodies are
pairwise non-overlapping spans of `text` and only whitespace separates
them. -/
inductive WsInterleaved : List Char → List (List Char) → Prop
  | nil (w : List Char) : (∀ c ∈ w, isSpacePy c = true) → WsInterleaved w []
  | cons (w b rest : List Char) (bs : List (List Char)) :
      (∀ c ∈ w, isSpacePy c = true) → b ≠ [] → WsInterleaved rest bs →
      WsInterleaved (w ++ b ++ rest) (b :: bs)

-- ====================================================================
-- Lemma library
-- ====================================================================

theorem isLB_isSpace {c : Char} (h : isLB c = true) : isSpacePy c = true := by
  simp only [isLB, Bool.or_eq_true, beq_iff_eq] at h
  simp only [isSpacePy, Bool.or_eq_true, beq_iff_eq]
  tauto

theorem splitlinesPy_ne_nil {s : List Char} (h : s ≠ []) :
    splitlinesPy s ≠ [] := by
  match s with
  | [c] =>
    by_cases hc : isLB c = true <;> simp [splitlinesPy, hc]
  | c :: d :: rest =>
    rw [splitlinesPy.eq_3]
    split
    · exact List.cons_ne_nil _ _
    · split
      · exact List.cons_ne_nil _ _
      · split <;> exact List.cons_ne_nil _ _

theorem splitlinesPy_singleton {s : List Char} (hne : s ≠ [])
    (h : ∀ c ∈ s, isLB c = false) : splitlinesPy s = [s] := by
  induction s with
  | nil => exact absurd rfl hne
  | cons c rest ih =>
    match rest, ih with
    | [], _ =>
      have hc := h c (by simp)
      simp [splitlinesPy, hc]
    | d :: rest2, ih =>
      have hc : isLB c = false := h c (by simp)
      have hcr : ¬(c = '\r') := by
        rintro rfl; simp [isLB] at hc
      rw [splitlinesPy.eq_3]
      have hrec : splitlinesPy (d :: rest2) = [d :: rest2] :=
        ih (by simp) (fun x hx => h x (by simp [hx]))
      simp [hcr, hc, hrec]

theorem splitlinesPy_append_nl {l : List Char}
    (hl : ∀ c ∈ l, isLB c = false) (t : List Char) :
    splitlinesPy (l ++ '\n' :: t) = l :: splitlinesPy t := by
  induction l with
  | nil =>
    match t with
    | [] => simp [splitlinesPy, isLB]
    | u :: t' =>
      rw [List.nil_append, splitlinesPy.eq_3]
      have : ¬('\n' = '\r') := by decide
      simp [this, isLB]
  | cons c l' ih =>
    have hc : isLB c = false := hl c (by simp)
    have hcr : ¬(c = '\r') := by rintro rfl; simp [isLB] at hc
    have ih' := ih (fun x hx => hl x (by simp [hx]))
    match l' with
    | [] =>
      rw [List.cons_append, List.nil_append, splitlinesPy.eq_3]
      rw [List.nil_append] at ih'
      simp [hcr, hc, ih']
    | d :: l'' =>
      rw [List.cons_append, List.cons_append, splitlinesPy.eq_3]
      have harr : d :: l'' ++ '\n' :: t = d :: (l'' ++ '\n' :: t) := by simp
      rw [harr] at ih'
      simp [hcr, hc, ih']

theorem splitlinesPy_joinNL {ls : List (List Char)}
    (h : ∀ l ∈ ls, l ≠ [] ∧ ∀ c ∈ l, isLB c = false) (hne : ls ≠ []) :
    splitlinesPy (joinNL ls) = ls := by
  induction ls with
  | nil => exact absurd rfl hne
  | cons l rest ih =>
    match rest, ih with
    | [], _ =>
      have := h l (by simp)
      exact splitlinesPy_singleton this.1 this.2
    | l2 :: rest2, ih =>
      rw [joinNL, splitlinesPy_append_nl (h l (by simp)).2]
      rw [ih (fun x hx => h x (by simp [hx])) (by simp)]

theorem mem_joinNL_char {ls : List (List Char)} {c : Char}
    (h : c ∈ joinNL ls) : c = '\n' ∨ ∃ l ∈ ls, c ∈ l := by
  induction ls with
  | nil => simp [joinNL] at h
  | cons l rest ih =>
    match rest, ih with
    | [], _ =>
      right; exact ⟨l, by simp, by simpa [joinNL] using h⟩
    | l2 :: rest2, ih =>
      rw [joinNL, List.mem_append] at h
      rcases h with h | h
      · right; exact ⟨l, by simp, h⟩
      · rcases List.mem_cons.mp h with h | h
        · left; exact h
        · rcases ih h with h | ⟨x, hx, hc⟩
          · left; exact h
          · right; exact ⟨x, by simp [hx], hc⟩

theorem isPrefixList_iff {a b : List Char} :
    isPrefixList a b = true ↔ ∃ t, b = a ++ t := by
  induction a generalizing b with
  | nil => simp [isPrefixList]
  | cons c as ih =>
    cases b with
    | nil => simp [isPrefixList]
    | cons d bs =>
      simp only [isPrefixList, Bool.and_eq_true, beq_iff_eq, ih,
        List.cons_append, List.cons.injEq]
      constructor
      · rintro ⟨rfl, t, rfl⟩; exact ⟨t, rfl, rfl⟩
      · rintro ⟨t, rfl, rfl⟩; exact ⟨rfl, t, rfl⟩

theorem dropWhile_head_false {p : Char → Bool} :
    ∀ {s : List Char} {c : Char} {t : List Char},
      s.dropWhile p = c :: t → p c = false := by
  intro s
  induction s with
  | nil => intro c t h; simp at h
  | cons d s' ih =>
    intro c t h
    rw [List.dropWhile_cons] at h
    by_cases hd : p d = true
    · rw [if_pos hd] at h; exact ih h
    · rw [if_neg hd] at h
      cases h
      simpa using hd

theorem lstripPy_decomp (s : List Char) :
    (∀ c ∈ s.takeWhile isSpacePy, isSpacePy c = true) ∧
      s = s.takeWhile isSpacePy ++ lstripPy s :=
  ⟨fun _ hc => List.mem_takeWhile_imp hc,
    (List.takeWhile_append_dropWhile isSpacePy s).symm⟩

theorem rstripPy_decomp (s : List Char) :
    (∀ c ∈ (s.reverse.takeWhile isSpacePy).reverse, isSpacePy c = true) ∧
      s = rstripPy s ++ (s.reverse.takeWhile isSpacePy).reverse := by
  constructor
  · intro c hc
    rw [List.mem_reverse] at hc
    exact List.mem_takeWhile_imp hc
  · conv_lhs => rw [← List.reverse_reverse s,
      ← List.takeWhile_append_dropWhile isSpacePy s.reverse]
    rw [List.reverse_append]
    rfl

/-- Every string splits as leading whitespace, its strip, and trailing
whitespace. -/
theorem pyStrip_decomp (s : List Char) :
    ∃ a b, (∀ c ∈ a, isSpacePy c = true) ∧ (∀ c ∈ b, isSpacePy c = true) ∧
      s = a ++ pyStrip s ++ b := by
  obtain ⟨ha, hs⟩ := lstripPy_decomp s
  obtain ⟨hb, hs2⟩ := rstripPy_decomp (lstripPy s)
  refine ⟨s.takeWhile isSpacePy, ((lstripPy s).reverse.takeWhile isSpacePy).reverse,
    ha, hb, ?_⟩
  rw [List.append_assoc]
  simp only [pyStrip]
  rw [← hs2]
  exact hs

/-- A non-empty strip starts with a non-whitespace character. -/
theorem pyStrip_head_not_space {s : List Char} {c : Char} {t : List Char}
    (h : pyStrip s = c :: t) : isSpacePy c = false := by
  obtain ⟨_, hs2⟩ := rstripPy_decomp (lstripPy s)
  rw [show rstripPy (lstripPy s) = pyStrip s from rfl, h] at hs2
  exact dropWhile_head_false (p := isSpacePy) (s := s)
    (by rw [show List.dropWhile isSpacePy s = lstripPy s from rfl, hs2]; rfl)

/-- The first element of `splitlinesPy s` is the leading run of
non-line-break characters. -/
theorem splitlinesPy_headD {s : List Char} (hne : s ≠ []) :
    (splitlinesPy s).headD [] = s.takeWhile (fun c => !(isLB c)) := by
  induction s with
  | nil => exact absurd rfl hne
  | cons c rest ih =>
    match rest, ih with
    | [], _ =>
      by_cases hc : isLB c = true <;>
        simp [splitlinesPy, List.takeWhile_cons, hc]
    | d :: rest2, ih =>
      have hrec := ih (by simp)
      rw [splitlinesPy.eq_3, List.takeWhile_cons]
      by_cases hc : isLB c = true
      · by_cases hcd : (decide (c = '\r') && decide (d = '\n')) = true <;>
          simp [hcd, hc]
      · have hcr : ¬(c = '\r') := by rintro rfl; simp [isLB] at hc
        obtain ⟨l, ls, heq⟩ : ∃ l ls, splitlinesPy (d :: rest2) = l :: ls := by
          cases h2 : splitlinesPy (d :: rest2) with
          | nil => exact absurd h2 (splitlinesPy_ne_nil (by simp))
          | cons l ls => exact ⟨l, ls, rfl⟩
        rw [heq] at hrec
        simp only [List.headD_cons] at hrec
        simp [hcr, hc, heq, hrec]

/-- Body and title of a chunk produced by the heading branch of
`_split_into_sections`: the body is the stripped part, the title is the
stripped first line of the body, and the title is a character-for-
character prefix of the body. -/
theorem chunkOfPart_spec {part t b : List Char}
    (h : chunkOfPart part = some (t, b)) :
    b = pyStrip part ∧ b ≠ [] ∧ t = pyStrip ((splitlinesPy b).headD []) ∧
      isPrefixList t b = true := by
  unfold chunkOfPart at h
  by_cases hp : pyStrip part = []
  · rw [if_pos hp] at h; exact absurd h (by simp)
  · rw [if_neg hp] at h
    simp only [Option.some.injEq, Prod.mk.injEq] at h
    obtain ⟨ht, hb⟩ := h
    subst hb; subst ht
    refine ⟨rfl, hp, rfl, ?_⟩
    obtain ⟨c, t0, hcons⟩ : ∃ c t0, pyStrip part = c :: t0 := by
      cases hx : pyStrip part with
      | nil => exact absurd hx hp
      | cons c t0 => exact ⟨c, t0, rfl⟩
    have hcns : isSpacePy c = false := pyStrip_head_not_space hcons
    have hcnl : isLB c = false := by
      cases hl : isLB c with
      | false => rfl
      | true => rw [isLB_isSpace hl] at hcns; cases hcns
    rw [splitlinesPy_headD hp]
    set q : Char → Bool := fun x => !(isLB x) with hq
    have hfl : (pyStrip part).takeWhile q = c :: (t0.takeWhile q) := by
      rw [hcons, List.takeWhile_cons]
      simp [hq, hcnl]
    -- the body splits as its first line plus the rest
    have hsplit : pyStrip part =
        (pyStrip part).takeWhile q ++ (pyStrip part).dropWhile q :=
      (List.takeWhile_append_dropWhile q (pyStrip part)).symm
    -- stripping the first line only removes trailing whitespace
    have hlstrip : lstripPy ((pyStrip part).takeWhile q) =
        (pyStrip part).takeWhile q := by
      rw [hfl]
      simp [lstripPy, List.dropWhile_cons, hcns]
    have hrdec := rstripPy_decomp (lstripPy ((pyStrip part).takeWhile q))
    rw [isPrefixList_iff]
    refine ⟨(((lstripPy ((pyStrip part).takeWhile q)).reverse.takeWhile
        isSpacePy).reverse) ++ (pyStrip part).dropWhile q, ?_⟩
    conv_lhs => rw [hsplit]
    conv_lhs => rw [← hlstrip]
    conv_lhs => rw [hrdec.2]
    simp only [pyStrip, List.append_assoc]

/-- Concatenating the segments between sorted in-range positions
reconstructs the suffix from `start`: the `re.split` parts are exact
slices of the input. -/
theorem segmentsFrom_concat (text : List Char) :
    ∀ (ps : List Nat) (start : Nat),
      List.Pairwise (· ≤ ·) ps →
      (∀ p ∈ ps, start ≤ p ∧ p ≤ text.length) →
      (segmentsFrom text ps start).foldr (· ++ ·) [] = text.drop start := by
  intro ps
  induction ps with
  | nil =>
    intro start _ _
    simp only [segmentsFrom, List.foldr_cons, List.foldr_nil, List.append_nil]
    unfold sliceL
    exact List.take_of_length_le (by simp)
  | cons p rest ih =>
    intro start hpw hbound
    have hsp : start ≤ p := (hbound p (by simp)).1
    have hple : p ≤ text.length := (hbound p (by simp)).2
    have hrest : ∀ q ∈ rest, p ≤ q ∧ q ≤ text.length := by
      intro q hq
      exact ⟨(List.pairwise_cons.mp hpw).1 q hq, (hbound q (by simp [hq])).2⟩
    simp only [segmentsFrom, List.foldr_cons]
    rw [ih p (List.pairwise_cons.mp hpw).2 hrest]
    rw [show List.drop p text = List.drop (p - start) (List.drop start text) by
      rw [List.drop_drop]; congr 1; omega]
    exact List.take_append_drop _ _

theorem partsOf_concat (text : List Char) :
    (partsOf text).foldr (· ++ ·) [] = text := by
  unfold partsOf splitPositions
  rw [segmentsFrom_concat]
  · exact List.drop_zero text
  · exact List.Pairwise.filter _ ((List.pairwise_lt_range _).imp le_of_lt)
  · intro p hp
    have := List.mem_range.mp (List.mem_of_mem_filter hp)
    omega

theorem WsInterleaved.absorb {w t : List Char} {bs : List (List Char)}
    (hw : ∀ c ∈ w, isSpacePy c = true) (h : WsInterleaved t bs) :
    WsInterleaved (w ++ t) bs := by
  induction h with
  | nil w' hw' =>
    exact WsInterleaved.nil (w ++ w')
      (by intro c hc; rcases List.mem_append.mp hc with h | h
          exacts [hw c h, hw' c h])
  | cons w' b rest bs hw' hb hrest _ =>
    have harr : w ++ (w' ++ b ++ rest) = (w ++ w') ++ b ++ rest := by simp
    rw [harr]
    exact WsInterleaved.cons (w ++ w') b rest bs
      (by intro c hc; rcases List.mem_append.mp hc with h | h
          exacts [hw c h, hw' c h]) hb hrest

/-- If the strip of a part is empty, the part is all whitespace. -/
theorem allWs_of_strip_nil {p : List Char} (h : pyStrip p = []) :
    ∀ c ∈ p, isSpacePy c = true := by
  obtain ⟨a, b, ha, hb, hdec⟩ := pyStrip_decomp p
  rw [h, List.append_nil] at hdec
  intro c hc
  rw [hdec] at hc
  rcases List.mem_append.mp hc with h1 | h1
  exacts [ha c h1, hb c h1]

/-- The stripped non-empty parts interleave with whitespace to rebuild
the concatenation of the parts. -/
theorem wsInterleaved_parts (parts : List (List Char)) :
    WsInterleaved (parts.foldr (· ++ ·) [])
      (parts.filterMap (fun p => if pyStrip p = [] then none
        else some (pyStrip p))) := by
  induction parts with
  | nil => exact WsInterleaved.nil [] (by intro c hc; simp at hc)
  | cons p rest ih =>
    simp only [List.foldr_cons, List.filterMap_cons]
    by_cases hp : pyStrip p = []
    · rw [if_pos hp]
      exact WsInterleaved.absorb (allWs_of_strip_nil hp) ih
    · rw [if_neg hp]
      obtain ⟨a, b, ha, hb, hdec⟩ := pyStrip_decomp p
      have hres := WsInterleaved.absorb hb ih
      have := WsInterleaved.cons a (pyStrip p)
        (b ++ rest.foldr (· ++ ·) []) _ ha hp hres
      rw [show a ++ pyStrip p ++ (b ++ List.foldr (· ++ ·) [] rest) =
        (a ++ pyStrip p ++ b) ++ List.foldr (· ++ ·) [] rest by simp, ← hdec]
        at this
      exact this

theorem lookupA_bump (m : List (List Char × Nat)) (k k' : List Char) :
    lookupA (bump m k) k' =
      if k' = k then lookupA m k' + 1 else lookupA m k' := by
  induction m with
  | nil =>
    simp only [bump, lookupA]
    by_cases h : k' = k
    · subst h; simp
    · rw [if_neg (fun hh => h hh.symm), if_neg h]
  | cons e rest ih =>
    obtain ⟨ek, ec⟩ := e
    simp only [bump]
    by_cases hek : ek = k
    · subst hek
      rw [if_pos rfl]
      simp only [lookupA]
      by_cases h2 : ek = k'
      · subst h2
        simp
      · rw [if_neg h2, if_neg (fun hh => h2 hh.symm), if_neg h2]
    · rw [if_neg hek]
      simp only [lookupA]
      by_cases h3 : ek = k'
      · subst h3
        rw [if_pos rfl, if_pos rfl, if_neg (fun hh => hek hh)]
      · rw [if_neg h3, if_neg h3, ih]

theorem keys_bump (m : List (List Char × Nat)) (k : List Char) :
    (bump m k).map Prod.fst =
      if k ∈ m.map Prod.fst then m.map Prod.fst
      else m.map Prod.fst ++ [k] := by
  induction m with
  | nil => simp [bump]
  | cons e rest ih =>
    obtain ⟨ek, ec⟩ := e
    by_cases hek : ek = k
    · subst hek; simp [bump]
    · simp only [bump, if_neg hek, List.map_cons, List.mem_cons]
      rw [ih]
      by_cases hmem : k ∈ rest.map Prod.fst
      · rw [if_pos hmem, if_pos (Or.inr hmem)]
      · rw [if_neg hmem, if_neg (by
          rintro (h | h)
          exacts [hek h.symm, hmem h])]
        simp

theorem nodupKeys_bump {m : List (List Char × Nat)} (k : List Char)
    (h : (m.map Prod.fst).Nodup) : ((bump m k).map Prod.fst).Nodup := by
  rw [keys_bump]
  by_cases hmem : k ∈ m.map Prod.fst
  · rwa [if_pos hmem]
  · rw [if_neg hmem]
    exact h.append (List.nodup_singleton k)
      (by rintro a ha hb; simp at hb; subst hb; exact hmem ha)

theorem lookupA_of_mem_nodup :
    ∀ {m : List (List Char × Nat)} {k : List Char} {c : Nat},
      (m.map Prod.fst).Nodup → (k, c) ∈ m → lookupA m k = c := by
  intro m
  induction m with
  | nil => intro k c _ h; simp at h
  | cons e rest ih =>
    intro k c hnd h
    obtain ⟨ek, ec⟩ := e
    simp only [List.map_cons, List.nodup_cons] at hnd
    rcases List.mem_cons.mp h with h1 | h1
    · injection h1 with h2 h3
      subst h2; subst h3
      simp [lookupA]
    · have hne : ¬(ek = k) := by
        rintro rfl
        exact hnd.1 (List.mem_map.mpr ⟨(ek, c), h1, rfl⟩)
      simp [lookupA, hne, ih hnd.2 h1]

theorem mem_of_lookupA_pos :
    ∀ {m : List (List Char × Nat)} {k : List Char},
      lookupA m k ≠ 0 → (k, lookupA m k) ∈ m := by
  intro m
  induction m with
  | nil => intro k h; simp [lookupA] at h
  | cons e rest ih =>
    intro k h
    obtain ⟨ek, ec⟩ := e
    by_cases hek : ek = k
    · subst hek; simp [lookupA] at h ⊢
    · simp only [lookupA, if_neg hek] at h ⊢
      exact List.mem_cons_of_mem _ (ih h)

theorem lookupA_lineFold {l : List Char} (hl : l ≠ []) :
    ∀ (lines : List (List Char)) (m : List (List Char × Nat)),
      lookupA (lines.foldl freqStep m) l =
        lookupA m l + (lines.filter (fun line => normLine line == l)).length := by
  intro lines
  induction lines with
  | nil => intro m; simp
  | cons line rest ih =>
    intro m
    simp only [List.foldl_cons]
    rw [ih]
    by_cases h : normLine line = []
    · have hcond : (normLine line == l) = false := by
        rw [h]; exact beq_false_of_ne (fun hx => hl hx.symm)
      rw [List.filter_cons_of_neg (by simp [hcond])]
      simp only [freqStep, if_pos h]
    · simp only [freqStep, if_neg h]
      rw [lookupA_bump]
      by_cases h2 : l = normLine line
      · rw [if_pos h2]
        rw [List.filter_cons_of_pos (by simp [h2.symm])]
        simp only [List.length_cons]
        omega
      · rw [if_neg h2]
        rw [List.filter_cons_of_neg
          (by simp; exact fun hx => h2 hx.symm)]

theorem lookupA_pageFold {l : List Char} (hl : l ≠ []) :
    ∀ (pages : List (List Char)) (m : List (List Char × Nat)),
      lookupA (pages.foldl (fun m p => (splitlinesPy p).foldl freqStep m) m) l =
        lookupA m l + countOcc pages l := by
  intro pages
  induction pages with
  | nil => intro m; simp [countOcc]
  | cons p rest ih =>
    intro m
    simp only [List.foldl_cons]
    rw [ih, lookupA_lineFold hl]
    simp only [countOcc, List.map_cons, List.sum_cons]
    omega

/-- The frequency dict holds exactly the occurrence counts. -/
theorem lookupA_freqFold {l : List Char} (hl : l ≠ []) (pages : List (List Char)) :
    lookupA (freqFold pages) l = countOcc pages l := by
  unfold freqFold
  rw [lookupA_pageFold hl]
  simp [lookupA]

theorem nodupKeys_lineFold :
    ∀ (lines : List (List Char)) (m : List (List Char × Nat)),
      (m.map Prod.fst).Nodup → ((lines.foldl freqStep m).map Prod.fst).Nodup := by
  intro lines
  induction lines with
  | nil => intro m h; simpa using h
  | cons line rest ih =>
    intro m h
    simp only [List.foldl_cons]
    refine ih _ ?_
    unfold freqStep
    by_cases hx : normLine line = []
    · rwa [if_pos hx]
    · rw [if_neg hx]
      exact nodupKeys_bump _ h

theorem nodupKeys_freqFold (pages : List (List Char)) :
    ((freqFold pages).map Prod.fst).Nodup := by
  unfold freqFold
  generalize hm : ([] : List (List Char × Nat)) = m
  have hbase : (m.map Prod.fst).Nodup := by rw [← hm]; simp
  clear hm
  induction pages generalizing m with
  | nil => simpa using hbase
  | cons p rest ih =>
    simp only [List.foldl_cons]
    exact ih _ (nodupKeys_lineFold _ _ hbase)

/-- Membership in the frequency-rule part of `_find_repeated_lines` is
exactly the cutoff test on the occurrence count. -/
theorem mem_freqRepeated_iff {pages : List (List Char)} {ratio : ℚ}
    {l : List Char} (hl : l ≠ []) :
    l ∈ freqRepeated pages ratio ↔
      cutoffVal pages.length ratio ≤ countOcc pages l := by
  unfold freqRepeated
  constructor
  · intro h
    obtain ⟨⟨k, c⟩, hmem, hk⟩ := List.mem_map.mp h
    obtain ⟨hin, hc⟩ := List.mem_filter.mp hmem
    simp only at hk
    subst hk
    have := lookupA_of_mem_nodup (nodupKeys_freqFold pages) hin
    rw [lookupA_freqFold hl pages] at this
    rw [this]
    simpa using hc
  · intro h
    have hcut : 2 ≤ cutoffVal pages.length ratio := le_max_left _ _
    have hpos : lookupA (freqFold pages) l ≠ 0 := by
      rw [lookupA_freqFold hl pages]
      omega
    have hmem := mem_of_lookupA_pos hpos
    refine List.mem_map.mpr ⟨(l, lookupA (freqFold pages) l),
      List.mem_filter.mpr ⟨hmem, ?_⟩, rfl⟩
    rw [lookupA_freqFold hl pages]
    simpa using h

/-- Lines produced by `splitlines` contain no line-break characters. -/
theorem mem_splitlinesPy_noLB {s : List Char} :
    ∀ l ∈ splitlinesPy s, ∀ c ∈ l, isLB c = false := by
  induction s using splitlinesPy.induct with
  | case1 => intro l hl; simp [splitlinesPy] at hl
  | case2 c hc =>
    intro l hl c' hc'
    simp [splitlinesPy, hc] at hl
    subst hl; simp at hc'
  | case3 c hc =>
    intro l hl c' hc'
    simp [splitlinesPy, hc] at hl
    subst hl
    rcases List.mem_singleton.mp hc' with rfl
    simpa using hc
  | case4 c d rest hcd ih =>
    intro l hl c' hc'
    rw [splitlinesPy.eq_3, if_pos hcd] at hl
    rcases List.mem_cons.mp hl with rfl | hl
    · simp at hc'
    · exact ih l hl c' hc'
  | case5 c d rest hcd hc ih =>
    intro l hl c' hc'
    rw [splitlinesPy.eq_3, if_neg hcd, if_pos hc] at hl
    rcases List.mem_cons.mp hl with rfl | hl
    · simp at hc'
    · exact ih l hl c' hc'
  | case6 c d rest hcd hc hnil ih =>
    exact absurd hnil (splitlinesPy_ne_nil (by simp))
  | case7 c d rest hcd hc l0 ls0 heq ih =>
    intro l hl c' hc'
    rw [splitlinesPy.eq_3, if_neg hcd, if_neg hc, heq] at hl
    rcases List.mem_cons.mp hl with rfl | hl
    · rcases List.mem_cons.mp hc' with rfl | hc'
      · simpa using hc
      · exact ih l0 (by rw [heq]; simp) c' hc'
    · exact ih l (by rw [heq]; simp [hl]) c' hc'

/-- Keys ever present in the text-loader frequency dict are at least 5
characters long. -/
theorem mem_keys_bump {m : List (List Char × Nat)} {k key : List Char}
    (h : key ∈ (bump m k).map Prod.fst) :
    key ∈ m.map Prod.fst ∨ key = k := by
  rw [keys_bump] at h
  by_cases hmem : k ∈ m.map Prod.fst
  · rw [if_pos hmem] at h; exact Or.inl h
  · rw [if_neg hmem] at h
    rcases List.mem_append.mp h with h | h
    · exact Or.inl h
    · exact Or.inr (by simpa using h)

theorem keys_lineFoldTxt :
    ∀ (lines : List (List Char)) (m : List (List Char × Nat)),
      (∀ key ∈ m.map Prod.fst, 5 ≤ key.length) →
      ∀ key ∈ ((lines.foldl freqStepTxt m).map Prod.fst), 5 ≤ key.length := by
  intro lines
  induction lines with
  | nil => intro m h; simpa using h
  | cons line rest ih =>
    intro m h
    simp only [List.foldl_cons]
    refine ih _ ?_
    intro key hkey
    unfold freqStepTxt at hkey
    by_cases hx : (pyStrip line).length < 5
    · rw [if_pos hx] at hkey; exact h key hkey
    · rw [if_neg hx] at hkey
      rcases mem_keys_bump hkey with h1 | h1
      · exact h key h1
      · subst h1; omega

theorem keys_pageFoldTxt :
    ∀ (pages : List (List Char)) (m : List (List Char × Nat)),
      (∀ key ∈ m.map Prod.fst, 5 ≤ key.length) →
      ∀ key ∈ ((pages.foldl
        (fun m p => (splitlinesPy p).foldl freqStepTxt m) m).map Prod.fst),
        5 ≤ key.length := by
  intro pages
  induction pages with
  | nil => intro m h; simpa using h
  | cons p rest ih =>
    intro m h
    simp only [List.foldl_cons]
    exact ih _ (keys_lineFoldTxt _ _ h)

-- Scan-loop characterisation (for `extract_product_name`).

theorem acceptedAt_cons_succ (ln : List Char) (rest : List (List Char))
    (i : Nat) : acceptedAt (ln :: rest) (i + 1) = acceptedAt rest i := rfl

theorem acceptedAt_cons_zero (ln : List Char) (rest : List (List Char)) :
    acceptedAt (ln :: rest) 0 = lineStep ln rest := rfl

theorem scanLines_eq_none {lines : List (List Char)}
    (h : ∀ i < lines.length, acceptedAt lines i = none) :
    scanLines lines = none := by
  induction lines with
  | nil => rfl
  | cons ln rest ih =>
    have h0 : lineStep ln rest = none := by
      have := h 0 (by simp)
      rwa [acceptedAt_cons_zero] at this
    rw [scanLines, h0]
    exact ih (fun i hi => by
      have := h (i + 1) (by simpa using Nat.succ_lt_succ hi)
      rwa [acceptedAt_cons_succ] at this)

theorem scanLines_first :
    ∀ {lines : List (List Char)} {i : Nat} {v : List Char},
      acceptedAt lines i = some v → (∀ k < i, acceptedAt lines k = none) →
      scanLines lines = some v := by
  intro lines
  induction lines with
  | nil =>
    intro i v hacc _
    simp [acceptedAt] at hacc
  | cons ln rest ih =>
    intro i v hacc hbefore
    cases i with
    | zero =>
      rw [acceptedAt_cons_zero] at hacc
      rw [scanLines, hacc]
    | succ i' =>
      have h0 : lineStep ln rest = none := by
        have := hbefore 0 (Nat.succ_pos _)
        rwa [acceptedAt_cons_zero] at this
      rw [scanLines, h0]
      rw [acceptedAt_cons_succ] at hacc
      exact ih hacc (fun k hk => by
        have := hbefore (k + 1) (Nat.succ_lt_succ hk)
        rwa [acceptedAt_cons_succ] at this)

-- First-token characterisation of `_clean_value`.

theorem firstTokenPos_cons_pos {c : Char} {cs : List Char}
    (h : tokenAtL (c :: cs) = true) : firstTokenPos (c :: cs) = some 0 := by
  unfold firstTokenPos
  rw [show (c :: cs).length = cs.length + 1 from rfl, List.range_succ_eq_map]
  rw [List.find?_cons_of_pos]
  simpa using h

theorem firstTokenPos_cons_neg {c : Char} {cs : List Char}
    (h : tokenAtL (c :: cs) = false) :
    firstTokenPos (c :: cs) = (firstTokenPos cs).map Nat.succ := by
  unfold firstTokenPos
  rw [show (c :: cs).length = cs.length + 1 from rfl, List.range_succ_eq_map]
  rw [List.find?_cons_of_neg]
  · rw [List.find?_map]
    rfl
  · simpa using h

theorem dropFromToken_take (s : List Char) :
    dropFromToken s = s.take (firstTokenPosD s) := by
  induction s with
  | nil => simp [dropFromToken]
  | cons c cs ih =>
    by_cases h : tokenAtL (c :: cs) = true
    · rw [dropFromToken, if_pos h]
      rw [firstTokenPosD, firstTokenPos_cons_pos h]
      rfl
    · rw [dropFromToken, if_neg h, ih]
      have hd : firstTokenPosD (c :: cs) =
          ((firstTokenPos cs).map Nat.succ).getD ((c :: cs).length) := by
        rw [firstTokenPosD, firstTokenPos_cons_neg (by simpa using h)]
      rw [hd]
      cases hf : firstTokenPos cs with
      | none =>
        simp only [firstTokenPosD, hf, Option.map_none', Option.getD_none]
        rw [List.take_of_length_le (by simp),
          List.take_of_length_le (by simp)]
      | some i =>
        simp [firstTokenPosD, hf, List.take_succ_cons]

-- Every accepted value passes through `_clean_value`.

theorem lineStep_clean {ln : List Char} {rest : List (List Char)}
    {v : List Char} (h : lineStep ln rest = some v) :
    ∃ u, v = clean_value u := by
  unfold lineStep at h
  cases hc : splitFirstColon ln with
  | some lr =>
    rw [hc] at h
    simp only at h
    split_ifs at h with h1 h2 h3 h4
    · injection h with h5
      exact ⟨pyStrip lr.2, h5.symm⟩
  | none =>
    rw [hc] at h
    simp only at h
    split_ifs at h with h1 h2
    cases hh : (rest.dropWhile (fun l => pyStrip l == [])).head? with
    | none => rw [hh] at h; simp at h
    | some nxt =>
      rw [hh] at h
      simp only at h
      split_ifs at h with h3
      injection h with h5
      exact ⟨nxt, h5.symm⟩

theorem scanLines_clean :
    ∀ {lines : List (List Char)} {v : List Char},
      scanLines lines = some v → ∃ u, v = clean_value u := by
  intro lines
  induction lines with
  | nil => intro v h; simp [scanLines] at h
  | cons ln rest ih =>
    intro v h
    rw [scanLines] at h
    cases hs : lineStep ln rest with
    | some w => rw [hs] at h; injection h with h2; subst h2; exact lineStep_clean hs
    | none => rw [hs] at h; exact ih h

-- `load_sds_documents` fold behaviour.

theorem loadStep_error (splitter : List Char → List (List Char))
    (pdf_dir : List Char) (fr : List Char × Except Unit (List (List Char))) :
    loadStep splitter pdf_dir (.error ()) fr = .error () := rfl

theorem foldl_loadStep_error (splitter : List Char → List (List Char))
    (pdf_dir : List Char)
    (files : List (List Char × Except Unit (List (List Char)))) :
    files.foldl (loadStep splitter pdf_dir) (.error ()) = .error () := by
  induction files with
  | nil => rfl
  | cons fr rest ih => rw [List.foldl_cons, loadStep_error]; exact ih

theorem loadStep_skip_empty {splitter : List Char → List (List Char)}
    {pdf_dir fname : List Char} {pages : List (List Char)}
    (hempty : read_pdf_text_clean pages = [])
    (acc : Except Unit (List DocumentRec)) :
    loadStep splitter pdf_dir acc (fname, .ok pages) = acc := by
  cases acc with
  | error e => rfl
  | ok docs =>
    have hred : loadStep splitter pdf_dir (Except.ok docs) (fname, Except.ok pages) =
        if isPdfName fname = true then
          Except.ok (docs ++ process_file splitter pdf_dir fname pages)
        else Except.ok docs := rfl
    rw [hred]
    by_cases hp : isPdfName fname = true
    · rw [if_pos hp]
      have hpf : process_file splitter pdf_dir fname pages = [] := by
        simp [process_file, hempty]
      rw [hpf, List.append_nil]
    · rw [if_neg hp]

-- Cleaned pages: kept lines.

theorem mem_keptLines {p l : List Char} {repeated : List (List Char)}
    (h : l ∈ keptLines p repeated) :
    l ∈ splitlinesPy p ∧ normLine l ≠ [] ∧ normLine l ∉ repeated := by
  obtain ⟨hmem, hcond⟩ := List.mem_filter.mp h
  simp only [Bool.and_eq_true, Bool.not_eq_eq_eq_not, Bool.not_true,
    decide_eq_true_eq] at hcond
  refine ⟨hmem, ?_, ?_⟩
  · simpa using hcond.1
  · intro hin
    have h2 : repeated.contains (normLine l) = true := List.elem_iff.mpr hin
    rw [hcond.2] at h2
    cases h2

theorem keptLines_props {p : List Char} {repeated : List (List Char)} :
    ∀ l ∈ keptLines p repeated, l ≠ [] ∧ ∀ c ∈ l, isLB c = false := by
  intro l hl
  obtain ⟨hmem, hne, _⟩ := mem_keptLines hl
  refine ⟨?_, mem_splitlinesPy_noLB l hmem⟩
  rintro rfl
  exact hne rfl

/-- The lines of a cleaned page are exactly the kept raw lines. -/
theorem splitlines_cleanPage (p : List Char) (repeated : List (List Char)) :
    splitlinesPy (cleanPage p repeated) = keptLines p repeated ∨
      keptLines p repeated = [] := by
  by_cases h : keptLines p repeated = []
  · exact Or.inr h
  · left
    unfold cleanPage
    exact splitlinesPy_joinNL (fun l hl => keptLines_props l hl) h

theorem segmentsFrom_length (text : List Char) :
    ∀ (ps : List Nat) (start : Nat),
      (segmentsFrom text ps start).length = ps.length + 1 := by
  intro ps
  induction ps with
  | nil => intro start; rfl
  | cons p rest ih => intro start; simp [segmentsFrom, ih]

theorem partsOf_length (text : List Char) :
    (partsOf text).length = (splitPositions text).length + 1 :=
  segmentsFrom_length text (splitPositions text) 0

/-- When the lookahead matched anywhere, `_split_into_sections` takes
the heading branch. -/
theorem split_into_sections_headed
    (sp : List Char → List (List Char)) {text : List Char}
    (h : splitPositions text ≠ []) :
    split_into_sections sp text = (partsOf text).filterMap chunkOfPart := by
  unfold split_into_sections
  rw [if_pos]
  rw [partsOf_length]
  have : 0 < (splitPositions text).length := List.length_pos.mpr h
  omega

theorem chunks_map_snd (parts : List (List Char)) :
    (parts.filterMap chunkOfPart).map Prod.snd =
      parts.filterMap
        (fun p => if pyStrip p = [] then none else some (pyStrip p)) := by
  induction parts with
  | nil => rfl
  | cons p rest ih =>
    simp only [List.filterMap_cons]
    have hone : chunkOfPart p =
        if pyStrip p = [] then none
        else some (pyStrip ((splitlinesPy (pyStrip p)).headD []), pyStrip p) :=
      rfl
    rw [hone]
    by_cases hp : pyStrip p = []
    · rw [if_pos hp, if_pos hp]; exact ih
    · rw [if_neg hp, if_neg hp]
      simp only [List.map_cons]
      rw [ih]

theorem process_file_of_ne {splitter : List Char → List (List Char)}
    {pdf_dir fname : List Char} {pages : List (List Char)}
    (h : read_pdf_text_clean pages ≠ []) :
    process_file splitter pdf_dir fname pages =
      (split_into_sections splitter (read_pdf_text_clean pages)).map
        (fun tb =>
          { page_content := tb.2
            metadata :=
              [("source".toList, pdf_dir ++ '/' :: fname),
               ("file_name".toList, fname),
               ("product_name".toList,
                 extract_product_name (read_pdf_text_clean pages) fname),
               ("section".toList, tb.1),
               ("format".toList, "pdf".toList)] }) := by
  simp [process_file, h]

theorem mem_pyStrip_subset {s : List Char} {c : Char} (h : c ∈ pyStrip s) :
    c ∈ s := by
  obtain ⟨a, b, _, _, hdec⟩ := pyStrip_decomp s
  rw [hdec]
  simp [h]

/-- The cleaned text never contains a carriage return: `splitlines`
consumes every line-break character and pages and lines are rejoined
with `"\n"` only. -/
theorem read_pdf_text_clean_no_cr (pages : List (List Char)) :
    '\r' ∉ read_pdf_text_clean pages := by
  unfold read_pdf_text_clean
  by_cases hp : pages = []
  · rw [if_pos hp]; simp
  · rw [if_neg hp]
    intro hmem
    have hmem2 : '\r' ∈ strip_repeated_lines pages
        (find_repeated_lines pages (6/10)) := mem_pyStrip_subset hmem
    unfold strip_repeated_lines at hmem2
    rcases mem_joinNL_char hmem2 with h | ⟨pp, hpp, hc⟩
    · exact absurd h (by decide)
    · obtain ⟨p0, hp0, rfl⟩ := List.mem_map.mp hpp
      unfold cleanPage at hc
      rcases mem_joinNL_char hc with h | ⟨l, hl, hcl⟩
      · exact absurd h (by decide)
      · have := (keptLines_props l hl).2 '\r' hcl
        simp [isLB] at this

-- Concrete cutoff values (the only facts that need rational
-- arithmetic: everything after them is finite computation).

theorem cutoffVal_of_floor {n : Nat} {ratio : ℚ} {z : ℤ}
    (h0 : 0 ≤ (n : ℚ) * ratio) (h : ⌊(n : ℚ) * ratio⌋ = z) :
    cutoffVal n ratio = max 2 z.toNat := by
  unfold cutoffVal pyInt
  rw [if_pos h0, h]

theorem cutoff_1_06 : cutoffVal 1 (6/10) = 2 := by
  rw [cutoffVal_of_floor (z := 0) (by norm_num)
    (by rw [show ((1:ℕ):ℚ) * (6/10) = 6/10 by push_cast; ring]
        rw [Int.floor_eq_iff]
        norm_num)]
  rfl

theorem cutoff_3_06 : cutoffVal 3 (6/10) = 2 := by
  rw [cutoffVal_of_floor (z := 1) (by norm_num)
    (by rw [show ((3:ℕ):ℚ) * (6/10) = 9/5 by push_cast; ring]
        rw [Int.floor_eq_iff]
        norm_num)]
  rfl

theorem cutoff_3_07 : cutoffVal 3 (7/10) = 2 := by
  rw [cutoffVal_of_floor (z := 2) (by norm_num)
    (by rw [show ((3:ℕ):ℚ) * (7/10) = 21/10 by push_cast; ring]
        rw [Int.floor_eq_iff]
        norm_num)]
  rfl

theorem cutoff_10_07 : cutoffVal 10 (7/10) = 7 := by
  rw [cutoffVal_of_floor (z := 7) (by norm_num)
    (by rw [show ((10:ℕ):ℚ) * (7/10) = 7 by push_cast; ring]
        norm_num)]
  rfl

theorem c1_repeated : find_repeated_lines c1Pages (6/10) = [] := by
  unfold find_repeated_lines freqRepeated
  rw [show cutoffVal c1Pages.length (6/10) = 2 from cutoff_1_06]
  decide

theorem c1_clean :
    read_pdf_text_clean c1Pages = "Section 1: ID \nbody text here".toList := by
  unfold read_pdf_text_clean
  rw [c1_repeated]
  decide

theorem c1w_repeated : find_repeated_lines c1wPages (6/10) = [] := by
  unfold find_repeated_lines freqRepeated
  rw [show cutoffVal c1wPages.length (6/10) = 2 from cutoff_1_06]
  decide

theorem c1w_clean :
    read_pdf_text_clean c1wPages = "Section 3: Storage\nKeep cool".toList := by
  unfold read_pdf_text_clean
  rw [c1w_repeated]
  decide

theorem c3_repeated : find_repeated_lines c3Pages (6/10) = [] := by
  unfold find_repeated_lines freqRepeated
  rw [show cutoffVal c3Pages.length (6/10) = 2 from cutoff_1_06]
  decide

theorem c3_clean : read_pdf_text_clean c3Pages =
    ("Section 7: Handling and storage\nGeneral stuff\n7.1 Precautions\n" ++
      "Wash hands\nSection 8: Exposure\nUse gloves").toList := by
  unfold read_pdf_text_clean
  rw [c3_repeated]
  decide

theorem c7_repeated : find_repeated_lines c7Pages (6/10) = [] := by
  unfold find_repeated_lines freqRepeated
  rw [show cutoffVal c7Pages.length (6/10) = 2 from cutoff_1_06]
  decide

theorem c7_clean :
    read_pdf_text_clean c7Pages = "col1  col2\nother line".toList := by
  unfold read_pdf_text_clean
  rw [c7_repeated]
  decide

theorem c9_repeated : find_repeated_lines c9Pages (6/10) = [] := by
  unfold find_repeated_lines freqRepeated
  rw [show cutoffVal c9Pages.length (6/10) = 2 from cutoff_1_06]
  decide

theorem c9_clean : read_pdf_text_clean c9Pages = "Hello there".toList := by
  unfold read_pdf_text_clean
  rw [c9_repeated]
  decide

theorem c10_repeated : find_repeated_lines c10Pages (6/10) = [] := by
  unfold find_repeated_lines freqRepeated
  rw [show cutoffVal c10Pages.length (6/10) = 2 from cutoff_3_06]
  decide

theorem c10_clean :
    read_pdf_text_clean c10Pages = "alpha line\n\nbeta line".toList := by
  unfold read_pdf_text_clean
  rw [c10_repeated]
  decide

theorem c8_repeated :
    find_repeated_lines c8Pages (6/10) = ["abc".toList] := by
  unfold find_repeated_lines freqRepeated
  rw [show cutoffVal c8Pages.length (6/10) = 2 from cutoff_3_06]
  decide

theorem c4_repeated :
    find_repeated_lines c4Pages (7/10) = ["Repeated Header Line".toList] := by
  unfold find_repeated_lines freqRepeated
  rw [show cutoffVal c4Pages.length (7/10) = 7 from cutoff_10_07]
  decide

-- ====================================================================
-- Claim theorems
-- ====================================================================

/-- Claim C4: a line enters the boilerplate set by frequency exactly
when its occurrence count across pages reaches
`max(2, floor(pageCount * ratio))`; concretely, over the ten pages of
`c4Pages` at ratio 0.7 the cutoff is 7, the line occurring on 8 pages
is removed from the normalized output, and the line occurring on
exactly 6 pages is retained. -/
theorem c4_frequency_cutoff :
    (∀ (pages : List (List Char)) (ratio : ℚ) (l : List Char),
      l ≠ [] → 0 ≤ ratio →
      (l ∈ freqRepeated pages ratio ↔
        max 2 (Int.toNat ⌊(pages.length : ℚ) * ratio⌋) ≤ countOcc pages l)) ∧
    cutoffVal 10 (7/10) = 7 ∧
    "Repeated Header Line".toList ∉
      splitlinesPy (strip_repeated_lines c4Pages
        (find_repeated_lines c4Pages (7/10))) ∧
    "Common Six Line".toList ∈
      splitlinesPy (strip_repeated_lines c4Pages
        (find_repeated_lines c4Pages (7/10))) := by
  refine ⟨?_, cutoff_10_07, ?_, ?_⟩
  · intro pages ratio l hl hr
    rw [mem_freqRepeated_iff hl]
    unfold cutoffVal pyInt
    rw [if_pos (mul_nonneg (by positivity) hr)]
  · rw [c4_repeated]; decide
  · rw [c4_repeated]; decide

/-- Witness for C4 at a concrete input: the header line occurring on 8
of the 10 pages. -/
theorem c4_frequency_cutoff_witness :
    ("Repeated Header Line".toList ≠ ([] : List Char) ∧ (0:ℚ) ≤ 7/10) ∧
    ("Repeated Header Line".toList ∈ freqRepeated c4Pages (7/10) ↔
      max 2 (Int.toNat ⌊(c4Pages.length : ℚ) * (7/10)⌋) ≤
        countOcc c4Pages "Repeated Header Line".toList) :=
  ⟨⟨by decide, by norm_num⟩,
    c4_frequency_cutoff.1 c4Pages (7/10) _ (by decide) (by norm_num)⟩

/-- Claim C8 counterexample: in `_find_repeated_lines` a 3-character
line occurring on every page enters the boilerplate set through the
count-threshold rule (no length exclusion exists there), and it matches
no catalog pattern. -/
theorem c8_counterexample :
    (normLine "abc".toList).length < 5 ∧
    catalogMatch "abc".toList = false ∧
    "abc".toList ∈ freqRepeated c8Pages (6/10) ∧
    "abc".toList ∈ find_repeated_lines c8Pages (6/10) := by
  refine ⟨by decide, by decide, ?_, ?_⟩
  · unfold freqRepeated
    rw [show cutoffVal c8Pages.length (6/10) = 2 from cutoff_3_06]
    decide
  · rw [c8_repeated]; decide

/-- Claim C8 amended: the sub-5-character exclusion from frequency
counting exists only in `identify_repeated_headers_footers`
(`loader.py`, which has no catalog check): every key of its result dict
is at least 5 characters long.  `_find_repeated_lines`
(`loader_pdf.py`) counts lines of any length, as witnessed by the
3-character line of `c8Pages` entering by frequency. -/
theorem c8_amended :
    (∀ (pages : List (List Char)) (l : List Char) (c : Nat),
      (l, c) ∈ identify_repeated_headers_footers pages → 5 ≤ l.length) ∧
    "abc".toList ∈ freqRepeated c8Pages (6/10) := by
  constructor
  · intro pages l c h
    unfold identify_repeated_headers_footers at h
    have h2 := (List.mem_filter.mp h).1
    have h3 : l ∈ (pages.foldl
        (fun m p => (splitlinesPy p).foldl freqStepTxt m) []).map Prod.fst :=
      List.mem_map.mpr ⟨(l, c), h2, rfl⟩
    exact keys_pageFoldTxt pages [] (by simp) l h3
  · unfold freqRepeated
    rw [show cutoffVal c8Pages.length (6/10) = 2 from cutoff_3_06]
    decide

theorem c8w_mem :
    ("Header line!".toList, 3) ∈ identify_repeated_headers_footers c8wPages := by
  unfold identify_repeated_headers_footers
  rw [show cutoffVal c8wPages.length (7/10) = 2 from cutoff_3_07]
  decide

/-- Witness for the amended C8 at a concrete input. -/
theorem c8_amended_witness :
    (("Header line!".toList, 3) ∈ identify_repeated_headers_footers c8wPages) ∧
    5 ≤ "Header line!".toList.length :=
  ⟨c8w_mem, c8_amended.1 c8wPages "Header line!".toList 3 c8w_mem⟩

/-- Claim C5: on the specified input the extracted product name is
exactly `Acme Degreaser`; in general `_clean_value` collapses
whitespace and truncates at the first case-insensitive `SDS No` /
`CAS No` token, trimming trailing whitespace, and every value the
scanner accepts has passed through `_clean_value`. -/
theorem c5_product_name_extraction :
    extract_product_name
      ("Section 1: Identification\nProduct Name: Acme Degreaser\n" ++
        "SDS No. 1234\nSection 2: Hazards\n...").toList "x.pdf".toList =
      "Acme Degreaser".toList ∧
    (∀ v : List Char,
      clean_value v =
        pyStrip ((normLine v).take (firstTokenPosD (normLine v)))) ∧
    (∀ text fname : List Char,
      extract_product_name text fname = "UNKNOWN".toList ∨
      ∃ u, extract_product_name text fname = clean_value u) := by
  refine ⟨by decide, ?_, ?_⟩
  · intro v
    unfold clean_value
    rw [dropFromToken_take]
  · intro text fname
    unfold extract_product_name
    cases h : scanLines (windowLines text) with
    | none => left; rfl
    | some v =>
      right
      obtain ⟨u, hu⟩ := scanLines_clean h
      exact ⟨u, hu⟩

/-- Claim C6: the scan returns the first accepted labeled value in
top-to-bottom line order, and returns the sentinel `UNKNOWN` (a value,
not an exception) whenever no line of the identification window
(including the 2500-character fallback window) is accepted. -/
theorem c6_first_accepted_or_unknown (text fname : List Char) :
    ((∀ i < (windowLines text).length,
        acceptedAt (windowLines text) i = none) →
      extract_product_name text fname = "UNKNOWN".toList) ∧
    (∀ (i : Nat) (v : List Char), acceptedAt (windowLines text) i = some v →
      (∀ k < i, acceptedAt (windowLines text) k = none) →
      extract_product_name text fname = v) := by
  constructor
  · intro h
    unfold extract_product_name
    rw [scanLines_eq_none (fun i hi => h i hi)]
  · intro i v hacc hbef
    unfold extract_product_name
    rw [scanLines_first hacc hbef]

/-- Witness for C6: a text with no recognisable label anywhere (the
fallback window is the whole text) yields `UNKNOWN`. -/
theorem c6_first_accepted_or_unknown_witness :
    (∀ i < (windowLines "hello world\nno labels here".toList).length,
      acceptedAt (windowLines "hello world\nno labels here".toList) i = none) ∧
    extract_product_name "hello world\nno labels here".toList
      "f.pdf".toList = "UNKNOWN".toList := by
  have h : ∀ i < (windowLines "hello world\nno labels here".toList).length,
      acceptedAt (windowLines "hello world\nno labels here".toList) i = none := by
    decide
  exact ⟨h, (c6_first_accepted_or_unknown _ _).1 h⟩

/-- Claim C7 counterexample: the blob handed to the section parser is
NOT horizontal-whitespace-collapsed — a double space inside a kept line
survives `_read_pdf_text_clean` verbatim. -/
theorem c7_counterexample :
    read_pdf_text_clean c7Pages = "col1  col2\nother line".toList ∧
    containsSub (read_pdf_text_clean c7Pages) "  ".toList = true := by
  refine ⟨c7_clean, ?_⟩
  rw [c7_clean]
  decide

/-- Claim C7 amended: boilerplate removal compares the
whitespace-collapsed form of each raw line against the collected
(collapsed) boilerplate strings, and keeps the raw line unchanged; no
whitespace-collapse pass is applied to the final blob, but carriage
returns never survive because lines are split on them and rejoined with
newlines. -/
theorem c7_amended :
    (∀ (p : List Char) (repeated : List (List Char)),
      ∀ l ∈ splitlinesPy (cleanPage p repeated),
        l ∈ splitlinesPy p ∧ normLine l ≠ [] ∧ normLine l ∉ repeated) ∧
    (∀ pages : List (List Char), '\r' ∉ read_pdf_text_clean pages) := by
  constructor
  · intro p repeated l hl
    rcases splitlines_cleanPage p repeated with h | h
    · rw [h] at hl
      exact mem_keptLines hl
    · rw [show cleanPage p repeated = [] from by
        unfold cleanPage; rw [h]; rfl] at hl
      simp [splitlinesPy] at hl
  · exact read_pdf_text_clean_no_cr

/-- Witness for the amended C7 at a concrete page. -/
theorem c7_amended_witness :
    ("keep me".toList ∈
      splitlinesPy (cleanPage "keep me\n\nalso".toList [])) ∧
    ("keep me".toList ∈ splitlinesPy "keep me\n\nalso".toList ∧
      normLine "keep me".toList ≠ [] ∧
      normLine "keep me".toList ∉ ([] : List (List Char))) := by
  have hl : "keep me".toList ∈
      splitlinesPy (cleanPage "keep me\n\nalso".toList []) := by decide
  exact ⟨hl, c7_amended.1 "keep me\n\nalso".toList [] "keep me".toList hl⟩

/-- Claim C10 counterexample: a page whose every line is dropped leaves
an empty page string, and the page join then produces a blank line in
the cleaned text. -/
theorem c10_counterexample :
    read_pdf_text_clean c10Pages = "alpha line\n\nbeta line".toList ∧
    [] ∈ splitlinesPy (read_pdf_text_clean c10Pages) := by
  refine ⟨c10_clean, ?_⟩
  rw [c10_clean]
  decide

/-- Claim C10 amended: within a single cleaned page no blank line
survives — every line of `cleanPage` has a non-empty collapsed form
(blank lines are dropped regardless of the boilerplate set) — but the
page-level join may still introduce blank lines between pages, as the
counterexample shows. -/
theorem c10_amended (p : List Char) (repeated : List (List Char)) :
    ∀ l ∈ splitlinesPy (cleanPage p repeated), normLine l ≠ [] := by
  intro l hl
  rcases splitlines_cleanPage p repeated with h | h
  · rw [h] at hl
    exact (mem_keptLines hl).2.1
  · rw [show cleanPage p repeated = [] from by
      unfold cleanPage; rw [h]; rfl] at hl
    simp [splitlinesPy] at hl

/-- Witness for the amended C10 at a concrete page containing a blank
line and a boilerplate line. -/
theorem c10_amended_witness :
    ("body text".toList ∈
      splitlinesPy (cleanPage "Header!\n\nbody text".toList
        ["Header!".toList])) ∧
    normLine "body text".toList ≠ [] := by
  have hl : "body text".toList ∈
      splitlinesPy (cleanPage "Header!\n\nbody text".toList
        ["Header!".toList]) := by decide
  exact ⟨hl, c10_amended "Header!\n\nbody text".toList
    ["Header!".toList] "body text".toList hl⟩

/-- Claim C2 counterexample: on a text with exactly two detected
headings (split positions 6 and 20, neither a dotted subsection) and a
non-blank preamble, `_split_into_sections` emits three records, and the
concatenation of the bodies does not reconstruct the text (stripping
loses the inter-section whitespace). -/
theorem c2_counterexample :
    splitPositions "Intro\nSection 1: A \nSection 2: B".toList = [6, 20] ∧
    (split_into_sections (fun t => [t])
      "Intro\nSection 1: A \nSection 2: B".toList).length = 3 ∧
    ((split_into_sections (fun t => [t])
        "Intro\nSection 1: A \nSection 2: B".toList).map Prod.snd).foldr
        (· ++ ·) [] ≠ "Intro\nSection 1: A \nSection 2: B".toList := by
  refine ⟨by decide, by decide, by decide⟩

/-- Claim C2 amended: the raw `re.split` parts concatenate back to the
text exactly, and the emitted bodies (the stripped non-whitespace
parts, a non-blank preamble included) interleave with whitespace-only
runs to rebuild the text in order — reconstruction is lossless only up
to the whitespace stripped at span boundaries, and the record count is
the number of non-whitespace spans, not the heading count. -/
theorem c2_amended :
    (∀ text : List Char, (partsOf text).foldr (· ++ ·) [] = text) ∧
    (∀ (sp : List Char → List (List Char)) (text : List Char),
      splitPositions text ≠ [] →
      WsInterleaved text ((split_into_sections sp text).map Prod.snd)) := by
  refine ⟨partsOf_concat, ?_⟩
  intro sp text h
  rw [split_into_sections_headed sp h, chunks_map_snd]
  have hws := wsInterleaved_parts (partsOf text)
  rwa [partsOf_concat] at hws

/-- Witness for the amended C2 at a concrete two-section text. -/
theorem c2_amended_witness :
    splitPositions "Section 1: A\nSection 2: B".toList ≠ [] ∧
    WsInterleaved "Section 1: A\nSection 2: B".toList
      ((split_into_sections (fun t => [t])
        "Section 1: A\nSection 2: B".toList).map Prod.snd) :=
  ⟨by decide, c2_amended.2 (fun t => [t]) _ (by decide)⟩

theorem metaLookup_section (src fn pn t fmt : List Char) :
    metaLookup [("source".toList, src), ("file_name".toList, fn),
      ("product_name".toList, pn), ("section".toList, t),
      ("format".toList, fmt)] "section".toList = t := by
  simp only [metaLookup]
  rw [if_neg (by decide), if_neg (by decide), if_neg (by decide),
    if_pos (by decide)]

/-- Claim C1 counterexample: a heading line with trailing whitespace
produces a record whose `section` value followed by a newline is NOT a
prefix of its `page_content` — the stored text is not the `section`
string plus newline plus body. -/
theorem c1_counterexample :
    (process_file (fun t => [t]) "data/sds_pdf".toList "a.pdf".toList
        c1Pages).map
      (fun d => (metaLookup d.metadata "section".toList, d.page_content)) =
      [("Section 1: ID".toList, "Section 1: ID \nbody text here".toList)] ∧
    isPrefixList ("Section 1: ID".toList ++ ['\n'])
      "Section 1: ID \nbody text here".toList = false := by
  constructor
  · rw [process_file_of_ne (by rw [c1_clean]; decide), c1_clean]
    decide
  · decide

/-- Claim C1 amended: for every record emitted from a document in which
headings were detected, the `section` metadata value is the stripped
first line of the record's `page_content` and is, character for
character, a prefix of it (the raw heading line may carry trailing
whitespace between the stored `section` value and the newline). -/
theorem c1_amended (sp : List Char → List (List Char))
    (pdf_dir fname : List Char) (pages : List (List Char))
    (hps : splitPositions (read_pdf_text_clean pages) ≠ []) :
    ∀ d ∈ process_file sp pdf_dir fname pages,
      isPrefixList (metaLookup d.metadata "section".toList)
        d.page_content = true ∧
      metaLookup d.metadata "section".toList =
        pyStrip ((splitlinesPy d.page_content).headD []) := by
  intro d hd
  have htext : read_pdf_text_clean pages ≠ [] := by
    intro he
    rw [he] at hps
    exact hps rfl
  rw [process_file_of_ne htext] at hd
  obtain ⟨tb, htb, rfl⟩ := List.mem_map.mp hd
  rw [split_into_sections_headed sp hps] at htb
  obtain ⟨part, hpart, hchunk⟩ := List.mem_filterMap.mp htb
  obtain ⟨t, b, rfl⟩ : ∃ t b, tb = (t, b) := ⟨tb.1, tb.2, rfl⟩
  obtain ⟨hb, hbne, ht, hpre⟩ := chunkOfPart_spec hchunk
  simp only [metaLookup_section]
  exact ⟨hpre, ht⟩

/-- Witness for the amended C1 at a concrete single-section document. -/
theorem c1_amended_witness :
    splitPositions (read_pdf_text_clean c1wPages) ≠ [] ∧
    (⟨"Section 3: Storage\nKeep cool".toList,
      [("source".toList, "d/s.pdf".toList),
       ("file_name".toList, "s.pdf".toList),
       ("product_name".toList, "UNKNOWN".toList),
       ("section".toList, "Section 3: Storage".toList),
       ("format".toList, "pdf".toList)]⟩ : DocumentRec) ∈
      process_file (fun t => [t]) "d".toList "s.pdf".toList c1wPages ∧
    isPrefixList
      (metaLookup [("source".toList, "d/s.pdf".toList),
         ("file_name".toList, "s.pdf".toList),
         ("product_name".toList, "UNKNOWN".toList),
         ("section".toList, "Section 3: Storage".toList),
         ("format".toList, "pdf".toList)] "section".toList)
      "Section 3: Storage\nKeep cool".toList = true := by
  have hps : splitPositions (read_pdf_text_clean c1wPages) ≠ [] := by
    rw [c1w_clean]; decide
  have hd : (⟨"Section 3: Storage\nKeep cool".toList,
      [("source".toList, "d/s.pdf".toList),
       ("file_name".toList, "s.pdf".toList),
       ("product_name".toList, "UNKNOWN".toList),
       ("section".toList, "Section 3: Storage".toList),
       ("format".toList, "pdf".toList)]⟩ : DocumentRec) ∈
      process_file (fun t => [t]) "d".toList "s.pdf".toList c1wPages := by
    rw [process_file_of_ne (by rw [c1w_clean]; decide), c1w_clean]
    decide
  exact ⟨hps, hd,
    (c1_amended (fun t => [t]) "d".toList "s.pdf".toList c1wPages hps _ hd).1⟩

/-- Claim C3 counterexample: a document with `7.1` nested inside
`Section 7` produces exactly two records — `Section 7` and `Section 8`
— no record for `7.1` (its text stays inside the `Section 7` body), and
no record carries any parent-section metadata key. -/
theorem c3_counterexample :
    process_file (fun t => [t]) "d".toList "f.pdf".toList c3Pages =
      [⟨("Section 7: Handling and storage\nGeneral stuff\n" ++
          "7.1 Precautions\nWash hands").toList,
        [("source".toList, "d/f.pdf".toList),
         ("file_name".toList, "f.pdf".toList),
         ("product_name".toList, "UNKNOWN".toList),
         ("section".toList, "Section 7: Handling and storage".toList),
         ("format".toList, "pdf".toList)]⟩,
       ⟨"Section 8: Exposure\nUse gloves".toList,
        [("source".toList, "d/f.pdf".toList),
         ("file_name".toList, "f.pdf".toList),
         ("product_name".toList, "UNKNOWN".toList),
         ("section".toList, "Section 8: Exposure".toList),
         ("format".toList, "pdf".toList)]⟩] ∧
    containsSub ("Section 7: Handling and storage\nGeneral stuff\n" ++
        "7.1 Precautions\nWash hands").toList
      "7.1 Precautions".toList = true ∧
    isPrefixList "7.1".toList
      "Section 7: Handling and storage".toList = false ∧
    isPrefixList "7.1".toList "Section 8: Exposure".toList = false ∧
    "parent_section".toList ∉
      [("source".toList, "d/f.pdf".toList),
       ("file_name".toList, "f.pdf".toList),
       ("product_name".toList, "UNKNOWN".toList),
       ("section".toList, "Section 7: Handling and storage".toList),
       ("format".toList, "pdf".toList)].map Prod.fst := by
  refine ⟨?_, by decide, by decide, by decide, by decide⟩
  rw [process_file_of_ne (by rw [c3_clean]; decide), c3_clean]
  decide

/-- Claim C3 amended: the pipeline emits no subsection records and no
parent linkage — every emitted record's metadata keys are exactly
`source`, `file_name`, `product_name`, `section`, `format`; on the
`7.1`-inside-`Section 7` document the records are `Section 7` and
`Section 8` only, with the `7.1` text contained in the `Section 7`
body. -/
theorem c3_amended :
    (∀ (sp : List Char → List (List Char)) (pdf_dir fname : List Char)
      (pages : List (List Char)) (d : DocumentRec),
      d ∈ process_file sp pdf_dir fname pages →
      d.metadata.map Prod.fst =
        ["source".toList, "file_name".toList, "product_name".toList,
         "section".toList, "format".toList]) ∧
    (process_file (fun t => [t]) "d".toList "f.pdf".toList c3Pages).map
        (fun d => metaLookup d.metadata "section".toList) =
      ["Section 7: Handling and storage".toList,
       "Section 8: Exposure".toList] := by
  constructor
  · intro sp pdf_dir fname pages d hd
    by_cases h : read_pdf_text_clean pages = []
    · have hempty : process_file sp pdf_dir fname pages = [] := by
        simp [process_file, h]
      rw [hempty] at hd
      simp at hd
    · rw [process_file_of_ne h] at hd
      obtain ⟨tb, _, rfl⟩ := List.mem_map.mp hd
      rfl
  · rw [process_file_of_ne (by rw [c3_clean]; decide), c3_clean]
    decide

/-- Witness for the amended C3 at a concrete record. -/
theorem c3_amended_witness :
    (⟨"Hello there".toList,
      [("source".toList, "d/b.pdf".toList),
       ("file_name".toList, "b.pdf".toList),
       ("product_name".toList, "UNKNOWN".toList),
       ("section".toList, "FULL".toList),
       ("format".toList, "pdf".toList)]⟩ : DocumentRec) ∈
      process_file (fun t => [t]) "d".toList "b.pdf".toList c9Pages ∧
    [("source".toList, "d/b.pdf".toList),
     ("file_name".toList, "b.pdf".toList),
     ("product_name".toList, "UNKNOWN".toList),
     ("section".toList, "FULL".toList),
     ("format".toList, "pdf".toList)].map Prod.fst =
      ["source".toList, "file_name".toList, "product_name".toList,
       "section".toList, "format".toList] := by
  have hd : (⟨"Hello there".toList,
      [("source".toList, "d/b.pdf".toList),
       ("file_name".toList, "b.pdf".toList),
       ("product_name".toList, "UNKNOWN".toList),
       ("section".toList, "FULL".toList),
       ("format".toList, "pdf".toList)]⟩ : DocumentRec) ∈
      process_file (fun t => [t]) "d".toList "b.pdf".toList c9Pages := by
    rw [process_file_of_ne (by rw [c9_clean]; decide), c9_clean]
    decide
  exact ⟨hd, c3_amended.1 (fun t => [t]) "d".toList "b.pdf".toList c9Pages _ hd⟩

/-- Claim C9 counterexample: an error while reading the first PDF
aborts the whole batch — the second, readable file produces no records
— although the same second file alone yields one record. -/
theorem c9_counterexample :
    load_sds_documents (fun t => [t]) "d".toList
        [("a.pdf".toList, Except.error ()),
         ("b.pdf".toList, Except.ok c9Pages)] = Except.error () ∧
    load_sds_documents (fun t => [t]) "d".toList
        [("b.pdf".toList, Except.ok c9Pages)] =
      Except.ok [⟨"Hello there".toList,
        [("source".toList, "d/b.pdf".toList),
         ("file_name".toList, "b.pdf".toList),
         ("product_name".toList, "UNKNOWN".toList),
         ("section".toList, "FULL".toList),
         ("format".toList, "pdf".toList)]⟩] := by
  constructor
  · rfl
  · have hstep : load_sds_documents (fun t => [t]) "d".toList
        [("b.pdf".toList, Except.ok c9Pages)] =
        Except.ok ([] ++ process_file (fun t => [t]) "d".toList
          "b.pdf".toList c9Pages) := rfl
    rw [hstep, process_file_of_ne (by rw [c9_clean]; decide), c9_clean]
    simp only [List.nil_append, Except.ok.injEq]
    decide

/-- Claim C9 amended: a file whose extracted text is empty is skipped
and never affects the rest of the batch, but there is no per-file
exception handling — a read error on one PDF makes the whole batch
return that error, losing every record. -/
theorem c9_amended :
    (∀ (sp : List Char → List (List Char)) (pdf_dir : List Char)
      (l1 l2 : List (List Char × Except Unit (List (List Char))))
      (fname : List Char) (pages : List (List Char)),
      read_pdf_text_clean pages = [] →
      load_sds_documents sp pdf_dir (l1 ++ (fname, Except.ok pages) :: l2) =
        load_sds_documents sp pdf_dir (l1 ++ l2)) ∧
    (∀ (sp : List Char → List (List Char)) (pdf_dir fname : List Char)
      (rest : List (List Char × Except Unit (List (List Char)))),
      isPdfName fname = true →
      load_sds_documents sp pdf_dir ((fname, Except.error ()) :: rest) =
        Except.error ()) := by
  constructor
  · intro sp pdf_dir l1 l2 fname pages hempty
    unfold load_sds_documents
    rw [List.foldl_append, List.foldl_append, List.foldl_cons,
      loadStep_skip_empty hempty]
  · intro sp pdf_dir fname rest hpdf
    unfold load_sds_documents
    rw [List.foldl_cons]
    rw [show loadStep sp pdf_dir (Except.ok []) (fname, Except.error ()) =
        if isPdfName fname = true then Except.error () else Except.ok []
      from rfl]
    rw [if_pos hpdf]
    exact foldl_loadStep_error sp pdf_dir rest

/-- Witness for the amended C9 at concrete inputs: a zero-page PDF is
skipped, and an unreadable first PDF aborts the batch. -/
theorem c9_amended_witness :
    (read_pdf_text_clean ([] : List (List Char)) = [] ∧
      isPdfName "a.pdf".toList = true) ∧
    load_sds_documents (fun t => [t]) "d".toList
        [("e.pdf".toList, Except.ok ([] : List (List Char)))] =
      load_sds_documents (fun t => [t]) "d".toList [] ∧
    load_sds_documents (fun t => [t]) "d".toList
        [("a.pdf".toList, Except.error ())] = Except.error () := by
  refine ⟨⟨rfl, by decide⟩, ?_, ?_⟩
  · have h := c9_amended.1 (fun t => [t]) "d".toList [] []
      "e.pdf".toList ([] : List (List Char)) rfl
    simpa using h
  · exact c9_amended.2 (fun t => [t]) "d".toList "a.pdf".toList []
      (by decide)
